import Mathlib

/-!
# Boat management: a shallow embedding of `BoatManagement.c`

The global state of the program, `Boat* marina[MAX_BOATS]` together with `boat_count`, is
modelled by a `List Boat` whose length is `boat_count`.  A C string is modelled by the list of
its characters before the terminating NUL, one `Char` per byte.  The `float` type is modelled
by an exact description of the IEEE 754 binary32 values with round-to-nearest-even arithmetic.
-/

namespace BoatManagement

/-! ## C strings and the library routines used by the program -/

/-- A C string: the characters before the terminating NUL. -/
abbrev CStr := List Char

/-- The function `tolower` of `<ctype.h>` in the "C" locale. -/
def tolower (c : Char) : Char :=
  if 'A'.toNat ≤ c.toNat ∧ c.toNat ≤ 'Z'.toNat then Char.ofNat (c.toNat + 32) else c

/-- The function `strcasecmp` of POSIX: the strings are compared character by character after
`tolower`, as unsigned values, and a string that ends first is the smaller one.  POSIX fixes
only the sign of the result, and the program tests only the sign, so the model returns
`-1`, `0` or `1`. -/
def strcasecmp : CStr → CStr → Int
  | [], [] => 0
  | [], _ :: _ => -1
  | _ :: _, [] => 1
  | c1 :: s1, c2 :: s2 =>
    if (tolower c1).toNat < (tolower c2).toNat then -1
    else if (tolower c2).toNat < (tolower c1).toNat then 1
    else strcasecmp s1 s2

/-- The function `isspace` of `<ctype.h>` in the "C" locale. -/
def isspace (c : Char) : Bool :=
  c = ' ' || c = '\t' || c = '\n' || c = '\x0b' || c = '\x0c' || c = '\r'

/-- The function `isdigit` of `<ctype.h>`. -/
def isdigit (c : Char) : Bool :=
  decide ('0'.toNat ≤ c.toNat ∧ c.toNat ≤ '9'.toNat)

/-- Leading white space is skipped by the numeric conversions. -/
def skip_space : CStr → CStr
  | [] => []
  | c :: s => if isspace c then skip_space s else c :: s

/-- Reads a maximal run of decimal digits, accumulating its value on top of `acc`;
returns the value, the number of digits read and the unread rest. -/
def scan_digits : CStr → Nat → Nat → Nat × Nat × CStr
  | [], acc, k => (acc, k, [])
  | c :: s, acc, k =>
    if isdigit c then scan_digits s (acc * 10 + (c.toNat - '0'.toNat)) (k + 1)
    else (acc, k, c :: s)

/-- Storing an out-of-range value in an `int`: modelled as 32-bit two's complement
wrap-around (the C standard leaves the conversions of such inputs undefined). -/
def wrap_int (v : Int) : Int := (v + 2147483648) % 4294967296 - 2147483648

/-- An optional sign in front of a number: whether it is `-`, and the rest. -/
def scan_sign : CStr → Bool × CStr
  | '-' :: s => (true, s)
  | '+' :: s => (false, s)
  | s => (false, s)

/-- The `%d` conversion of `sscanf`: white space, an optional sign, at least one digit.
`none` is a matching failure. -/
def scan_int (s : CStr) : Option (Int × CStr) :=
  let (neg, s1) := scan_sign (skip_space s)
  let (v, k, rest) := scan_digits s1 0 0
  if k = 0 then none
  else some (wrap_int (if neg then -(v : Int) else (v : Int)), rest)

/-- The function `atoi` of `<stdlib.h>`: white space, an optional sign, then the digits that
follow (the value is 0 when there is none). -/
def atoi (s : CStr) : Int :=
  let (neg, s1) := scan_sign (skip_space s)
  let (v, _, _) := scan_digits s1 0 0
  wrap_int (if neg then -(v : Int) else (v : Int))

/-- The `%w[^,]` conversion of `sscanf`: the longest run of at most `w` characters other
than a comma; a matching failure when that run is empty. -/
def scan_field (w : Nat) (s : CStr) : Option (CStr × CStr) :=
  let tok := (s.takeWhile (fun c => c ≠ ',')).take w
  if tok = [] then none else some (tok, s.drop tok.length)

/-- A comma in the format of `sscanf` matches exactly a comma of the input. -/
def scan_comma : CStr → Option CStr
  | ',' :: s => some s
  | _ => none

/-- The decimal digit `d` as a character. -/
def digit_char (d : Nat) : Char := Char.ofNat ('0'.toNat + d % 10)

/-- The digits of `n`, most significant first, in front of `acc`; `fuel` bounds the number
of digits. -/
def utoa_aux : Nat → Nat → CStr → CStr
  | 0, _, acc => acc
  | fuel + 1, n, acc =>
    if n / 10 = 0 then digit_char n :: acc
    else utoa_aux fuel (n / 10) (digit_char n :: acc)

/-- An unsigned number as printed by `printf`. -/
def utoa (n : Nat) : CStr := utoa_aux (n + 1) n []

/-- The `%d` conversion of `printf`. -/
def print_int (i : Int) : CStr :=
  if i < 0 then '-' :: utoa i.natAbs else utoa i.natAbs

/-! ## The type `float` -/

/-- The values of the C type `float` (IEEE 754 binary32): `finite neg mant exp` is
`(-1)^neg * mant * 2^exp`; the values that arithmetic produces have `mant < 2^24`,
`-149 ≤ exp ≤ 104`, and `2^23 ≤ mant` unless `exp = -149` (so zero is `mant = 0`,
`exp = -149`).  The sign and payload of a NaN are not tracked. -/
inductive Float32 where
  | finite (neg : Bool) (mant : Nat) (exp : Int)
  | inf (neg : Bool)
  | nan
  deriving DecidableEq, Repr

/-- Number of binary digits of `n`, by halving at most `fuel` times. -/
def bit_length_aux : Nat → Nat → Nat
  | 0, _ => 0
  | fuel + 1, n => if n = 0 then 0 else bit_length_aux fuel (n / 2) + 1

/-- Number of binary digits of `n`. -/
def bit_length (n : Nat) : Nat := bit_length_aux n n

/-- Integer quotient `n / d` rounded to nearest, ties to even. -/
def div_round_even (n d : Nat) : Nat :=
  let q := n / d
  let r := n % d
  if d < 2 * r ∨ (2 * r = d ∧ q % 2 = 1) then q + 1 else q

/-- The integer `lg` with `2^lg ≤ num / den < 2^(lg + 1)`, for `num > 0` and `den > 0`. -/
def floor_log2 (num den : Nat) : Int :=
  let e0 : Int := (bit_length num : Int) - (bit_length den : Int)
  let below : Bool :=
    if 0 ≤ e0 then decide (num < den * 2 ^ e0.toNat) else decide (num * 2 ^ (-e0).toNat < den)
  if below then e0 - 1 else e0

/-- The value `(-1)^neg * num / den` rounded to a multiple of `2^q` (ties to even), as a
binary32 value: a mantissa that reaches `2^24` is renormalised, and a value beyond the
largest finite one is an infinity. -/
def round_at (neg : Bool) (num den : Nat) (q : Int) : Float32 :=
  let m := div_round_even (num * 2 ^ (-q).toNat) (den * 2 ^ q.toNat)
  let (m1, q1) := if m = 16777216 then (8388608, q + 1) else (m, q)
  if 104 < q1 then .inf neg else .finite neg m1 q1

/-- The binary32 value nearest to `(-1)^neg * num / den` (ties to even), for `den > 0`:
the rounding of every arithmetic operation and of decimal input.  The unit in the last
place is `2^(lg - 23)`, and `2^-149` for subnormal values. -/
def round_nearest_even (neg : Bool) (num den : Nat) : Float32 :=
  if num = 0 then .finite neg 0 (-149)
  else round_at neg num den (max (floor_log2 num den - 23) (-149))

/-- The binary32 value nearest to `(-1)^neg * m * 2^e`. -/
def round_scaled (neg : Bool) (m : Nat) (e : Int) : Float32 :=
  round_nearest_even neg (m * 2 ^ e.toNat) (2 ^ (-e).toNat)

namespace Float32

/-- Conversion of an `int` to `float`. -/
def ofInt (i : Int) : Float32 := round_nearest_even (decide (i < 0)) i.natAbs 1

/-- A decimal constant `num / den` of the source text, such as `11.2f`. -/
def lit (num den : Nat) : Float32 := round_nearest_even false num den

/-- The signed integer `(-1)^neg * mant * 2^(exp - e)`, for `e ≤ exp`. -/
def scaled (neg : Bool) (mant : Nat) (exp e : Int) : Int :=
  (if neg then -1 else 1) * ((mant * 2 ^ (exp - e).toNat : Nat) : Int)

/-- Unary minus. -/
def neg : Float32 → Float32
  | finite s m e => finite (!s) m e
  | inf s => inf (!s)
  | nan => nan

/-- Addition of `float` values. -/
def add : Float32 → Float32 → Float32
  | nan, _ => nan
  | _, nan => nan
  | inf s, inf t => if s = t then inf s else nan
  | inf s, finite _ _ _ => inf s
  | finite _ _ _, inf t => inf t
  | finite s m e, finite t n f =>
    let g := min e f
    let sum := scaled s m e g + scaled t n f g
    if sum = 0 then finite (decide (m = 0 ∧ n = 0) && s && t) 0 (-149)
    else round_scaled (decide (sum < 0)) sum.natAbs g

/-- Subtraction of `float` values. -/
def sub (a b : Float32) : Float32 := add a (neg b)

/-- Multiplication of `float` values. -/
def mul : Float32 → Float32 → Float32
  | nan, _ => nan
  | _, nan => nan
  | inf s, inf t => inf (xor s t)
  | inf s, finite t n _ => if n = 0 then nan else inf (xor s t)
  | finite s m _, inf t => if m = 0 then nan else inf (xor s t)
  | finite s m e, finite t n f => round_scaled (xor s t) (m * n) (e + f)

/-- The comparison `a > b` of C: false as soon as one side is a NaN. -/
def gt : Float32 → Float32 → Bool
  | nan, _ => false
  | _, nan => false
  | inf s, inf t => !s && t
  | inf s, finite _ _ _ => !s
  | finite _ _ _, inf t => t
  | finite s m e, finite t n f =>
    let g := min e f
    decide (scaled t n f g < scaled s m e g)

end Float32

/-- A number of hundredths written with two decimals, as in `336.00`. -/
def print_cents (cents : Nat) : CStr :=
  utoa (cents / 100) ++ ['.', digit_char (cents / 10), digit_char cents]

/-- The `%.2f` conversion of `printf`: the exact value rounded to two decimals (ties to
even), or `inf`, `-inf`, `nan`. -/
def print_float2 : Float32 → CStr
  | .nan => "nan".toList
  | .inf s => if s then "-inf".toList else "inf".toList
  | .finite s m e =>
    let body := print_cents (div_round_even (m * 100 * 2 ^ e.toNat) (2 ^ (-e).toNat))
    if s then '-' :: body else body

/-- Whether `s` starts with the lower-case word `w`, ignoring the case of `s`. -/
def starts_with_nocase : CStr → CStr → Bool
  | _, [] => true
  | [], _ :: _ => false
  | c :: s, d :: w => tolower c = d && starts_with_nocase s w

/-- The optional exponent part `e[+-]digits` of a decimal floating constant: its value and
the rest; without a digit after the `e` nothing is consumed. -/
def scan_exponent : CStr → Int × CStr
  | [] => (0, [])
  | c :: s =>
    if c = 'e' ∨ c = 'E' then
      let (neg, s1) := scan_sign s
      let (v, k, rest) := scan_digits s1 0 0
      if k = 0 then (0, c :: s) else (if neg then -(v : Int) else (v : Int), rest)
    else (0, c :: s)

/-- The `%f` conversion of `sscanf` into a `float`, as `strtof` reads it: white space, an
optional sign, then `inf`, `infinity`, `nan`, or decimal digits with an optional fraction
and an optional exponent, rounded to the nearest `float`.  Hexadecimal constants and
`nan(...)` are not modelled.  `none` is a matching failure. -/
def scan_float (s : CStr) : Option (Float32 × CStr) :=
  let (neg, s1) := scan_sign (skip_space s)
  if starts_with_nocase s1 "infinity".toList then some (.inf neg, s1.drop 8)
  else if starts_with_nocase s1 "inf".toList then some (.inf neg, s1.drop 3)
  else if starts_with_nocase s1 "nan".toList then some (.nan, s1.drop 3)
  else
    let (ip, ki, s2) := scan_digits s1 0 0
    let (fp, kf, s3) :=
      match s2 with
      | '.' :: t => scan_digits t ip 0
      | _ => (ip, 0, s2)
    if ki + kf = 0 then none
    else
      let (ex, rest) := scan_exponent s3
      let p : Int := ex - (kf : Int)
      some (round_nearest_even neg (fp * 10 ^ p.toNat) (10 ^ (-p).toNat), rest)

/-! ## The data model -/

/-- The constant `MAX_BOATS`. -/
def MAX_BOATS : Nat := 120

/-- The enumeration `BoatType`. -/
inductive BoatType where
  | SLIP
  | LAND
  | TRAILOR
  | STORAGE
  deriving DecidableEq, Repr

/-- The union `Location`: the member that was last written. -/
inductive Location where
  | slip_number (n : Int)
  | bay_letter (c : Char)
  | trailor_tag (s : CStr)
  | storage_number (n : Int)
  deriving DecidableEq, Repr

/-- The structure `Boat`. -/
structure Boat where
  name : CStr
  length : Int
  type : BoatType
  location : Location
  amount_owed : Float32
  deriving DecidableEq, Repr

/-- The function `parse_type`. -/
def parse_type (str : CStr) : BoatType :=
  if strcasecmp str "slip".toList = 0 then .SLIP
  else if strcasecmp str "land".toList = 0 then .LAND
  else if strcasecmp str "trailor".toList = 0 then .TRAILOR
  else .STORAGE

/-- The function `type_to_str`. -/
def type_to_str : BoatType → CStr
  | .SLIP => "slip".toList
  | .LAND => "land".toList
  | .TRAILOR => "trailor".toList
  | .STORAGE => "storage".toList

/-- The function `monthly_charge`: the `int` length is converted to `float` and multiplied
by the `float` constant of the boat's type. -/
def monthly_charge (boat : Boat) : Float32 :=
  match boat.type with
  | .SLIP => Float32.mul (Float32.ofInt boat.length) (Float32.lit 125 10)
  | .LAND => Float32.mul (Float32.ofInt boat.length) (Float32.lit 140 10)
  | .TRAILOR => Float32.mul (Float32.ofInt boat.length) (Float32.lit 250 10)
  | .STORAGE => Float32.mul (Float32.ofInt boat.length) (Float32.lit 112 10)

/-! ## Operations on the inventory -/

/-- The loop of `find_boat_index` from position `i` on, over the boats not yet visited. -/
def find_boat_index_from (name : CStr) : List Boat → Nat → Int
  | [], _ => -1
  | b :: rest, i =>
    if strcasecmp name b.name = 0 then (i : Int) else find_boat_index_from name rest (i + 1)

/-- The function `find_boat_index`. -/
def find_boat_index (name : CStr) (marina : List Boat) : Int :=
  find_boat_index_from name marina 0

/-- The body of the inner loop of `sort_boats`: entries `i` and `j` are exchanged when the
name at `i` is the greater one. -/
def sort_step (marina : List Boat) (i j : Nat) : List Boat :=
  match marina[i]?, marina[j]? with
  | some a, some b => if strcasecmp a.name b.name > 0 then (marina.set i b).set j a else marina
  | _, _ => marina

/-- The function `sort_boats`: `i` runs from `0` while `i < boat_count - 1`, and `j` from
`i + 1` while `j < boat_count`. -/
def sort_boats (marina : List Boat) : List Boat :=
  let boat_count := marina.length
  (List.range (boat_count - 1)).foldl
    (fun m i => (List.range' (i + 1) (boat_count - (i + 1))).foldl (fun m j => sort_step m i j) m)
    marina

/-- The memory that `add_boat` reads without having written it when `sscanf` stops early:
the fresh `malloc` block and the stack buffers `type_str` and `extra`. -/
structure Uninit where
  name : CStr
  length : Int
  type_str : CStr
  extra : CStr
  amount_owed : Float32
  deriving DecidableEq, Repr

/-- The call `sscanf(csv_line, "%127[^,],%d,%15[^,],%31[^,],%f", ...)`: the conversions are
stored from left to right until one fails; what is not stored keeps its old content. -/
def sscanf_boat (csv_line : CStr) (u : Uninit) : Uninit :=
  match scan_field 127 csv_line with
  | none => u
  | some (name, r1) =>
    let u1 := { u with name := name }
    match (scan_comma r1).bind scan_int with
    | none => u1
    | some (len, r2) =>
      let u2 := { u1 with length := len }
      match (scan_comma r2).bind (scan_field 15) with
      | none => u2
      | some (type_str, r3) =>
        let u3 := { u2 with type_str := type_str }
        match (scan_comma r3).bind (scan_field 31) with
        | none => u3
        | some (extra, r4) =>
          let u4 := { u3 with extra := extra }
          match (scan_comma r4).bind scan_float with
          | none => u4
          | some (amount, _) => { u4 with amount_owed := amount }

/-- The boat that `add_boat` builds from what `sscanf` left in the buffers.  For a trailer
the whole of `extra` is copied by `strcpy`; a text of more than 15 characters overruns the
16-byte member, which the model does not describe. -/
def make_boat (s : Uninit) : Boat :=
  let type := parse_type s.type_str
  { name := s.name
    length := s.length
    type := type
    location :=
      match type with
      | .SLIP => .slip_number (atoi s.extra)
      | .LAND => .bay_letter (s.extra.headD '\x00')
      | .TRAILOR => .trailor_tag s.extra
      | .STORAGE => .storage_number (atoi s.extra)
    amount_owed := s.amount_owed }

/-- The function `add_boat`; `u` is the content of the uninitialised memory it uses. -/
def add_boat (u : Uninit) (csv_line : CStr) (marina : List Boat) : List Boat :=
  if marina.length ≥ MAX_BOATS then marina
  else sort_boats (marina ++ [make_boat (sscanf_boat csv_line u)])

/-- One line of the file written by `save_data`.  Reading a member of the union other than
the one last written is outside the model: `none`. -/
def save_line (b : Boat) : Option CStr :=
  let head := b.name ++ [','] ++ print_int b.length ++ [',']
  let tail := [','] ++ print_float2 b.amount_owed ++ ['\n']
  match b.type, b.location with
  | .SLIP, .slip_number n => some (head ++ "slip,".toList ++ print_int n ++ tail)
  | .LAND, .bay_letter c => some (head ++ "land,".toList ++ [c] ++ tail)
  | .TRAILOR, .trailor_tag t => some (head ++ "trailor,".toList ++ t ++ tail)
  | .STORAGE, .storage_number n => some (head ++ "storage,".toList ++ print_int n ++ tail)
  | _, _ => none

/-- What `load_data` does with a line of the file: the newline is cut off
(`line[strcspn(line, "\n")] = 0`) before the line goes to `add_boat`. -/
def chop_newline (line : CStr) : CStr := line.takeWhile (fun c => c ≠ '\n')

/-- The function `remove_boat`: the text it prints and the new inventory.  The entries
after `index` move down by one and `boat_count` is decremented. -/
def remove_boat (name : CStr) (marina : List Boat) : CStr × List Boat :=
  let index := find_boat_index name marina
  if index = -1 then ("No boat with that name\n".toList, marina)
  else
    let boat_count := marina.length
    let shifted := (List.range' index.toNat (boat_count - 1 - index.toNat)).foldl
      (fun m i => match m[i + 1]? with
        | some b => m.set i b
        | none => m) marina
    ([], shifted.take (boat_count - 1))

/-- The function `accept_payment`. -/
def accept_payment (name : CStr) (amount : Float32) (marina : List Boat) : List Boat :=
  let index := find_boat_index name marina
  if index ≠ -1 then
    marina.modify (fun b => { b with amount_owed := Float32.sub b.amount_owed amount })
      index.toNat
  else marina

/-- The function `update_month`. -/
def update_month (marina : List Boat) : List Boat :=
  (List.range marina.length).foldl
    (fun m i => m.modify
      (fun b => { b with amount_owed := Float32.add b.amount_owed (monthly_charge b) }) i)
    marina

/-- The payment branch of the menu loop in `main`, once the name and the amount have been
read: the messages it prints (prompts left out) and the new inventory. -/
def payment_option (name : CStr) (amount : Float32) (marina : List Boat) :
    CStr × List Boat :=
  let index := find_boat_index name marina
  if index = -1 then ("No boat with that name\n".toList, marina)
  else
    match marina[index.toNat]? with
    | none => ([], marina)
    | some b =>
      if Float32.gt amount b.amount_owed then
        ("That is more than the amount owed, $".toList ++ print_float2 b.amount_owed ++ ['\n'],
          marina)
      else ([], accept_payment name amount marina)

/-! ## Auxiliary functions used to state and prove the properties -/

/-- The inventory after a sequence of `add_boat` calls on the empty inventory; each call
comes with the content of the uninitialised memory it would read. -/
def add_boats (calls : List (Uninit × CStr)) : List Boat :=
  calls.foldl (fun m c => add_boat c.1 c.2 m) []

/-- Sample content of the uninitialised memory: empty strings, zero and a NaN. -/
def blank : Uninit :=
  { name := [], length := 0, type_str := [], extra := [], amount_owed := .nan }

/-- Sample boat: `Amy,30,land,B,50.00`. -/
def amy : Boat :=
  { name := "Amy".toList, length := 30, type := .LAND, location := .bay_letter 'B',
    amount_owed := .finite false 13107200 (-18) }

/-- Sample boat: `Pat,20,slip,5,100.00`. -/
def pat : Boat :=
  { name := "Pat".toList, length := 20, type := .SLIP, location := .slip_number 5,
    amount_owed := .finite false 13107200 (-17) }

/-- Sample boat: `Sue,9,storage,7,0.00`. -/
def sue : Boat :=
  { name := "Sue".toList, length := 9, type := .STORAGE, location := .storage_number 7,
    amount_owed := .finite false 0 (-149) }

/-- The `float` value `x` is exactly the non-negative number `num / den`. -/
def Float32.exactly (x : Float32) (num den : Nat) : Prop :=
  match x with
  | .finite false m e => m * 2 ^ e.toNat * den = num * 2 ^ (-e).toNat
  | _ => False

instance (x : Float32) (num den : Nat) : Decidable (x.exactly num den) := by
  unfold Float32.exactly
  split <;> infer_instance

/-- The values of the C type `int`. -/
def int_range (i : Int) : Prop := -2147483648 ≤ i ∧ i ≤ 2147483647

instance (i : Int) : Decidable (int_range i) := by
  unfold int_range
  infer_instance

/-- A text that survives as one field of a line of the file: a C string that is not empty,
has at most `w` characters and contains neither a comma nor a newline. -/
def field_text (w : Nat) (s : CStr) : Prop :=
  s ≠ [] ∧ s.length ≤ w ∧ ',' ∉ s ∧ '\n' ∉ s ∧ '\x00' ∉ s

instance (w : Nat) (s : CStr) : Decidable (field_text w s) := by
  unfold field_text
  infer_instance

/-- The location member agrees with the type and its content survives as a field:
a number of type `int`, a bay letter that is not a comma, a newline or NUL, a tag that fits
the 16-byte member. -/
def location_ready : BoatType → Location → Prop
  | .SLIP, .slip_number n => int_range n
  | .LAND, .bay_letter c => c ≠ ',' ∧ c ≠ '\n' ∧ c ≠ '\x00'
  | .TRAILOR, .trailor_tag t => field_text 15 t
  | .STORAGE, .storage_number n => int_range n
  | _, _ => False

instance (t : BoatType) (l : Location) : Decidable (location_ready t l) := by
  cases t <;> cases l <;> unfold location_ready <;> infer_instance

/-- The boats that `save_data` followed by `add_boat` reproduces: name and location detail
survive as fields, the numbers are of type `int`, and the amount owed is a value that
reading its two-decimal text gives back. -/
def round_trip_ready (b : Boat) : Prop :=
  field_text 127 b.name ∧ int_range b.length ∧ location_ready b.type b.location ∧
    scan_float (print_float2 b.amount_owed) = some (b.amount_owed, [])

instance (b : Boat) : Decidable (round_trip_ready b) := by
  unfold round_trip_ready
  infer_instance

/-- Two names are equal ignoring letter case, in the words of the specification: they
become the same text once every letter is lowered. -/
def same_ignoring_case (a b : CStr) : Prop := a.map tolower = b.map tolower

instance (a b : CStr) : Decidable (same_ignoring_case a b) := by
  unfold same_ignoring_case
  infer_instance

/-- The inventory is in ascending order of names under `strcasecmp`. -/
def name_sorted (marina : List Boat) : Prop :=
  marina.Pairwise (fun a b => strcasecmp a.name b.name ≤ 0)

instance (marina : List Boat) : Decidable (name_sorted marina) := by
  unfold name_sorted
  infer_instance

/-- The text that `add_boat` prints.  The function returns `void` and has no output
statement, neither on the path that returns at once because the inventory is full nor on
the path that stores the boat. -/
def add_boat_output (_u : Uninit) (_csv_line : CStr) (marina : List Boat) : CStr :=
  if marina.length ≥ MAX_BOATS then [] else []

/-- One call of an operation that changes the inventory, with its arguments. -/
inductive Command where
  | add (u : Uninit) (csv_line : CStr)
  | remove (name : CStr)
  | pay (name : CStr) (amount : Float32)
  | month

/-- The inventory after one command. -/
def exec (marina : List Boat) : Command → List Boat
  | .add u csv_line => add_boat u csv_line marina
  | .remove name => (remove_boat name marina).2
  | .pay name amount => accept_payment name amount marina
  | .month => update_month marina

/-- The inventory after a sequence of commands on the empty inventory. -/
def run (commands : List Command) : List Boat := commands.foldl exec []

/-- No two boats of the inventory have names that are equal ignoring letter case. -/
def names_distinct (marina : List Boat) : Prop :=
  marina.Pairwise (fun a b => ¬ same_ignoring_case a.name b.name)

instance (marina : List Boat) : Decidable (names_distinct marina) := by
  unfold names_distinct
  infer_instance

/-- The inventories reached from the empty one by `remove_boat` calls and by `add_boat`
calls whose new boat has a name that matches no boat already present. -/
inductive ReachableFresh : List Boat → Prop where
  | empty : ReachableFresh []
  | add (marina : List Boat) (u : Uninit) (csv_line : CStr) :
      ReachableFresh marina →
      (∀ b ∈ marina, ¬ same_ignoring_case (make_boat (sscanf_boat csv_line u)).name b.name) →
      ReachableFresh (add_boat u csv_line marina)
  | remove (marina : List Boat) (name : CStr) :
      ReachableFresh marina → ReachableFresh (remove_boat name marina).2

/-- The member of the union that was last written is the one that the type selects. -/
def location_active : BoatType → Location → Prop
  | .SLIP, .slip_number _ => True
  | .LAND, .bay_letter _ => True
  | .TRAILOR, .trailor_tag _ => True
  | .STORAGE, .storage_number _ => True
  | _, _ => False

instance (t : BoatType) (l : Location) : Decidable (location_active t l) := by
  cases t <;> cases l <;> unfold location_active <;> infer_instance

/-- A well-formed record of five fields: `name,length,kind,detail,amount`, the length
written in decimal. -/
def csv_record (name : CStr) (len : Int) (kind detail amount : CStr) : CStr :=
  name ++ ',' :: (print_int len ++ ',' :: (kind ++ ',' :: (detail ++ ',' :: amount)))

/-- Ordered insertion, in the words of the specification: the new boat goes immediately
before the first boat whose name is greater, and the other boats keep their order. -/
def insert_by_name (b : Boat) : List Boat → List Boat
  | [] => [b]
  | x :: xs =>
    if strcasecmp x.name b.name > 0 then b :: x :: xs else x :: insert_by_name b xs

/-- The inner loop of `sort_boats` seen from the entry at position `i`: `x` is that entry,
the list holds the entries still to be compared; the result is the final entry at `i` and
the entries left behind. -/
def sift (x : Boat) : List Boat → Boat × List Boat
  | [] => (x, [])
  | y :: ys =>
    if strcasecmp x.name y.name > 0 then ((sift y ys).1, x :: (sift y ys).2)
    else ((sift x ys).1, y :: (sift x ys).2)

/-- The outer loop of `sort_boats` seen from position `i`: `k` rounds on the entries from
`i` on. -/
def select_rounds : Nat → List Boat → List Boat
  | 0, l => l
  | _ + 1, [] => []
  | k + 1, x :: xs => (sift x xs).1 :: select_rounds k (sift x xs).2

/-! ## The order of names -/

theorem strcasecmp_flip : ∀ (a b : CStr), 0 < strcasecmp a b → strcasecmp b a ≤ 0
  | [], [] => by simp [strcasecmp]
  | [], _ :: _ => by simp [strcasecmp]
  | _ :: _, [] => by simp [strcasecmp]
  | c1 :: s1, c2 :: s2 => by
    have ih := strcasecmp_flip s1 s2
    simp only [strcasecmp]
    split_ifs <;> omega

theorem strcasecmp_trans : ∀ (a b c : CStr),
    strcasecmp a b ≤ 0 → strcasecmp b c ≤ 0 → strcasecmp a c ≤ 0
  | [], _, [] => by simp [strcasecmp]
  | [], _, _ :: _ => by simp [strcasecmp]
  | _ :: _, [], _ => by simp [strcasecmp]
  | _ :: _, _ :: _, [] => by
    simp only [strcasecmp]
    intro _ h; simp at h
  | c1 :: s1, c2 :: s2, c3 :: s3 => by
    have ih := strcasecmp_trans s1 s2 s3
    simp only [strcasecmp]
    split_ifs <;> omega

/-! ## The exchange sort -/

theorem sift_perm : ∀ (xs : List Boat) (x : Boat),
    ((sift x xs).1 :: (sift x xs).2).Perm (x :: xs)
  | [], x => by simp [sift]
  | y :: ys, x => by
    simp only [sift]
    split_ifs
    · exact (List.Perm.swap _ _ _).trans ((sift_perm ys y).cons x)
    · exact ((List.Perm.swap _ _ _).trans ((sift_perm ys x).cons y)).trans (List.Perm.swap _ _ _)

theorem sift_length (xs : List Boat) (x : Boat) : (sift x xs).2.length = xs.length := by
  have h := (sift_perm xs x).length_eq
  simpa using h

theorem sift_fst_le : ∀ (xs : List Boat) (x : Boat),
    strcasecmp (sift x xs).1.name x.name ≤ 0
  | [], x => by
    have h := strcasecmp_flip x.name x.name
    simp only [sift]
    omega
  | y :: ys, x => by
    simp only [sift]
    split_ifs with h
    · exact strcasecmp_trans _ _ _ (sift_fst_le ys y) (strcasecmp_flip _ _ h)
    · exact sift_fst_le ys x

theorem sift_fst_le_snd : ∀ (xs : List Boat) (x : Boat),
    ∀ y ∈ (sift x xs).2, strcasecmp (sift x xs).1.name y.name ≤ 0
  | [], x => by simp [sift]
  | z :: zs, x => by
    simp only [sift]
    split_ifs with h
    · intro y hy
      rcases List.mem_cons.1 hy with rfl | hy
      · exact strcasecmp_trans _ _ _ (sift_fst_le zs z) (strcasecmp_flip _ _ h)
      · exact sift_fst_le_snd zs z y hy
    · intro y hy
      rcases List.mem_cons.1 hy with rfl | hy
      · exact strcasecmp_trans _ _ _ (sift_fst_le zs x) (by omega)
      · exact sift_fst_le_snd zs x y hy

theorem select_rounds_perm : ∀ (k : Nat) (l : List Boat), (select_rounds k l).Perm l
  | 0, l => by simp [select_rounds]
  | _ + 1, [] => by simp [select_rounds]
  | k + 1, x :: xs => by
    simp only [select_rounds]
    exact ((select_rounds_perm k _).cons _).trans (sift_perm xs x)

theorem select_rounds_pairwise : ∀ (k : Nat) (l : List Boat), l.length ≤ k + 1 →
    (select_rounds k l).Pairwise (fun a b => strcasecmp a.name b.name ≤ 0)
  | 0, [], _ => by simp [select_rounds]
  | 0, [_], _ => by simp [select_rounds]
  | 0, _ :: _ :: _, h => by simp at h
  | _ + 1, [], _ => by simp [select_rounds]
  | k + 1, x :: xs, h => by
    simp only [select_rounds]
    refine List.pairwise_cons.2 ⟨?_, select_rounds_pairwise k _ ?_⟩
    · intro y hy
      exact sift_fst_le_snd xs x y ((select_rounds_perm k _).mem_iff.1 hy)
    · rw [sift_length]
      simpa using h

theorem getElem?_append_cons (l r : List Boat) (a : Boat) :
    (l ++ a :: r)[l.length]? = some a := by
  rw [List.getElem?_append_right (le_refl _)]
  simp

theorem sort_step_eq (pre done ys : List Boat) (x y : Boat) :
    sort_step (pre ++ x :: (done ++ y :: ys)) pre.length (pre.length + 1 + done.length) =
      if strcasecmp x.name y.name > 0 then pre ++ y :: (done ++ x :: ys)
      else pre ++ x :: (done ++ y :: ys) := by
  have hx : (pre ++ x :: (done ++ y :: ys))[pre.length]? = some x :=
    getElem?_append_cons _ _ _
  have hy : (pre ++ x :: (done ++ y :: ys))[pre.length + 1 + done.length]? = some y := by
    rw [List.getElem?_append_right (by omega)]
    have e : pre.length + 1 + done.length - pre.length = done.length + 1 := by omega
    rw [e, List.getElem?_cons_succ]
    exact getElem?_append_cons _ _ _
  have hs1 : (pre ++ x :: (done ++ y :: ys)).set pre.length y = pre ++ y :: (done ++ y :: ys) := by
    simp
  have hs2 : (pre ++ y :: (done ++ y :: ys)).set (pre.length + 1 + done.length) x =
      pre ++ y :: (done ++ x :: ys) := by
    rw [List.set_append_right _ _ (by omega)]
    have e : pre.length + 1 + done.length - pre.length = done.length + 1 := by omega
    rw [e, List.set_cons_succ]
    simp
  simp only [sort_step, hx, hy]
  split_ifs
  · rw [hs1, hs2]
  · rfl

theorem sort_inner_eq : ∀ (todo pre done : List Boat) (x : Boat),
    (List.range' (pre.length + 1 + done.length) todo.length).foldl
        (fun m j => sort_step m pre.length j) (pre ++ x :: (done ++ todo)) =
      pre ++ (sift x todo).1 :: (done ++ (sift x todo).2)
  | [], pre, done, x => by simp [sift]
  | y :: ys, pre, done, x => by
    simp only [List.length_cons, List.range'_succ, List.foldl_cons, sort_step_eq, sift]
    split_ifs with h
    · have ih := sort_inner_eq ys pre (done ++ [x]) y
      simp only [List.length_append, List.length_singleton, List.append_assoc,
        List.singleton_append] at ih
      rw [← ih]
      congr 2
    · have ih := sort_inner_eq ys pre (done ++ [y]) x
      simp only [List.length_append, List.length_singleton, List.append_assoc,
        List.singleton_append] at ih
      rw [← ih]
      congr 2

theorem sort_outer_eq : ∀ (k : Nat) (pre rest : List Boat) (n : Nat),
    n = pre.length + rest.length → k ≤ rest.length →
    (List.range' pre.length k).foldl
        (fun m i => (List.range' (i + 1) (n - (i + 1))).foldl (fun m j => sort_step m i j) m)
        (pre ++ rest) =
      pre ++ select_rounds k rest
  | 0, pre, rest, n, _, _ => by simp [select_rounds]
  | k + 1, pre, [], n, _, hk => by simp at hk
  | k + 1, pre, x :: xs, n, hn, hk => by
    have hcount : n - (pre.length + 1) = xs.length := by
      simp only [List.length_cons] at hn
      omega
    have hin := sort_inner_eq xs pre [] x
    simp only [List.length_nil, Nat.add_zero, List.nil_append] at hin
    simp only [List.range'_succ, List.foldl_cons, hcount, hin, select_rounds]
    have ih := sort_outer_eq k (pre ++ [(sift x xs).1]) (sift x xs).2 n
      (by simp only [List.length_append, List.length_singleton, sift_length]
          simp only [List.length_cons] at hn
          omega)
      (by rw [sift_length]; simpa using hk)
    simp only [List.length_append, List.length_singleton, List.append_assoc,
      List.singleton_append] at ih
    exact ih

theorem sort_boats_eq (marina : List Boat) :
    sort_boats marina = select_rounds (marina.length - 1) marina := by
  have h := sort_outer_eq (marina.length - 1) [] marina marina.length (by simp) (by omega)
  simpa [sort_boats, List.range_eq_range'] using h

theorem sort_boats_pairwise (marina : List Boat) :
    (sort_boats marina).Pairwise (fun a b => strcasecmp a.name b.name ≤ 0) := by
  rw [sort_boats_eq]
  exact select_rounds_pairwise _ _ (by omega)

theorem sort_boats_perm (marina : List Boat) : (sort_boats marina).Perm marina := by
  rw [sort_boats_eq]
  exact select_rounds_perm _ _

theorem add_boats_pairwise (calls : List (Uninit × CStr)) :
    (add_boats calls).Pairwise (fun a b => strcasecmp a.name b.name ≤ 0) := by
  have key : ∀ (cs : List (Uninit × CStr)) (m : List Boat),
      m.Pairwise (fun a b => strcasecmp a.name b.name ≤ 0) →
      (cs.foldl (fun m c => add_boat c.1 c.2 m) m).Pairwise
        (fun a b => strcasecmp a.name b.name ≤ 0) := by
    intro cs
    induction cs with
    | nil => intro m hm; simpa using hm
    | cons c cs ih =>
      intro m hm
      simp only [List.foldl_cons]
      apply ih
      unfold add_boat
      split_ifs
      · exact hm
      · exact sort_boats_pairwise _
  exact key calls [] List.Pairwise.nil

/-- C1. Sort invariant: after any finite sequence of `add_boat` calls on the empty inventory,
whatever the records (malformed ones and names equal up to case included), every earlier
boat has a name that `strcasecmp` finds less than or equal to that of every later boat. -/
theorem add_boat_keeps_sorted (calls : List (Uninit × CStr)) (i j : Nat) (a b : Boat)
    (hij : i < j) (ha : (add_boats calls)[i]? = some a) (hb : (add_boats calls)[j]? = some b) :
    strcasecmp a.name b.name ≤ 0 := by
  have hp := add_boats_pairwise calls
  rw [List.pairwise_iff_getElem] at hp
  obtain ⟨hi, rfl⟩ := List.getElem?_eq_some_iff.1 ha
  obtain ⟨hj, rfl⟩ := List.getElem?_eq_some_iff.1 hb
  exact hp i j hi hj hij

/-- C1, on the records `Pat`, `amy` and a malformed record named `AMY`: the first two boats
of the result are in order. -/
theorem add_boat_keeps_sorted_witness :
    (0 < 1 ∧
      (add_boats [(blank, "Pat,20,slip,5,100.00".toList), (blank, "amy,30,land,B,50.00".toList),
        (blank, "AMY,3".toList)])[0]? = some { amy with name := "amy".toList } ∧
      (add_boats [(blank, "Pat,20,slip,5,100.00".toList), (blank, "amy,30,land,B,50.00".toList),
        (blank, "AMY,3".toList)])[1]? =
          some { name := "AMY".toList, length := 3, type := .STORAGE,
                 location := .storage_number 0, amount_owed := .nan }) ∧
    strcasecmp "amy".toList "AMY".toList ≤ 0 :=
  ⟨⟨by decide, by decide, by decide⟩,
    add_boat_keeps_sorted
      [(blank, "Pat,20,slip,5,100.00".toList), (blank, "amy,30,land,B,50.00".toList),
        (blank, "AMY,3".toList)] 0 1
      { amy with name := "amy".toList }
      { name := "AMY".toList, length := 3, type := .STORAGE,
        location := .storage_number 0, amount_owed := .nan }
      (by decide) (by decide) (by decide)⟩

/-! ## Lookup -/

theorem char_toNat_inj {a b : Char} (h : a.toNat = b.toNat) : a = b := by
  rw [← Char.ofNat_toNat a, ← Char.ofNat_toNat b, h]

theorem strcasecmp_eq_zero_iff : ∀ (a b : CStr), strcasecmp a b = 0 ↔ same_ignoring_case a b
  | [], [] => by simp [strcasecmp, same_ignoring_case]
  | [], _ :: _ => by simp [strcasecmp, same_ignoring_case]
  | _ :: _, [] => by simp [strcasecmp, same_ignoring_case]
  | c1 :: s1, c2 :: s2 => by
    have ih := strcasecmp_eq_zero_iff s1 s2
    simp only [same_ignoring_case, List.map_cons, List.cons.injEq] at ih ⊢
    simp only [strcasecmp]
    constructor
    · intro h
      split_ifs at h with h1 h2
      · omega
      · exact ⟨char_toNat_inj (by omega), ih.1 h⟩
    · rintro ⟨hc, hs⟩
      rw [hc]
      simp only [lt_self_iff_false, if_false]
      exact ih.2 hs

theorem strcasecmp_congr_left : ∀ (a a' b : CStr), same_ignoring_case a a' →
    strcasecmp a' b = strcasecmp a b
  | [], [], _, _ => rfl
  | [], _ :: _, _, h => by simp [same_ignoring_case] at h
  | _ :: _, [], _, h => by simp [same_ignoring_case] at h
  | _ :: _, _ :: _, [], _ => by simp [strcasecmp]
  | c :: s, c' :: s', d :: t, h => by
    simp only [same_ignoring_case, List.map_cons, List.cons.injEq] at h
    simp only [strcasecmp, h.1]
    rw [strcasecmp_congr_left s s' t h.2]

theorem find_boat_index_from_cases (name : CStr) : ∀ (l : List Boat) (i0 : Nat),
    (find_boat_index_from name l i0 = -1 ∧ ∀ b ∈ l, strcasecmp name b.name ≠ 0) ∨
    (∃ (k : Nat) (b : Boat), find_boat_index_from name l i0 = ((i0 + k : Nat) : Int) ∧
      l[k]? = some b ∧ strcasecmp name b.name = 0 ∧
      ∀ j < k, ∀ c, l[j]? = some c → strcasecmp name c.name ≠ 0)
  | [], i0 => by simp [find_boat_index_from]
  | b :: rest, i0 => by
    simp only [find_boat_index_from]
    split_ifs with h
    · exact Or.inr ⟨0, b, by simp, by simp, h, by simp⟩
    · rcases find_boat_index_from_cases name rest (i0 + 1) with ⟨h1, h2⟩ | ⟨k, c, h1, h2, h3, h4⟩
      · left
        refine ⟨h1, ?_⟩
        intro x hx
        rcases List.mem_cons.1 hx with rfl | hx
        · exact h
        · exact h2 x hx
      · right
        refine ⟨k + 1, c, ?_, by simpa using h2, h3, ?_⟩
        · rw [h1]
          congr 1
          omega
        · intro j hj d hd
          cases j with
          | zero =>
            simp only [List.getElem?_cons_zero, Option.some.injEq] at hd
            rw [← hd]
            exact h
          | succ j =>
            simp only [List.getElem?_cons_succ] at hd
            exact h4 j (by omega) d hd

/-- The first position of `marina` whose name matches `name`, when there is one. -/
theorem find_boat_index_cases (name : CStr) (marina : List Boat) :
    (find_boat_index name marina = -1 ∧ ∀ b ∈ marina, strcasecmp name b.name ≠ 0) ∨
    (∃ (k : Nat) (b : Boat), find_boat_index name marina = (k : Int) ∧
      marina[k]? = some b ∧ strcasecmp name b.name = 0 ∧
      ∀ j < k, ∀ c, marina[j]? = some c → strcasecmp name c.name ≠ 0) := by
  have h := find_boat_index_from_cases name marina 0
  simpa [find_boat_index] using h

theorem find_boat_index_from_congr (name name' : CStr) (h : same_ignoring_case name name') :
    ∀ (l : List Boat) (i0 : Nat),
      find_boat_index_from name' l i0 = find_boat_index_from name l i0
  | [], _ => rfl
  | b :: rest, i0 => by
    simp only [find_boat_index_from, strcasecmp_congr_left name name' b.name h]
    rw [find_boat_index_from_congr name name' h rest (i0 + 1)]

/-- C5. Lookup: `find_boat_index` returns the least position whose boat name equals the
query ignoring letter case, returns `-1` exactly when no boat matches, returns nothing but
`-1` or a position below the count, and gives the same result for two queries that differ
only in letter case, such as `ALICE` and `alice`. -/
theorem find_boat_index_least_match (name : CStr) (marina : List Boat) :
    (∀ i : Nat, find_boat_index name marina = (i : Int) ↔
      ((∃ b, marina[i]? = some b ∧ same_ignoring_case name b.name) ∧
        ∀ k < i, ∀ c, marina[k]? = some c → ¬ same_ignoring_case name c.name)) ∧
    (find_boat_index name marina = -1 ↔ ∀ b ∈ marina, ¬ same_ignoring_case name b.name) ∧
    (find_boat_index name marina = -1 ∨
      ∃ i : Nat, find_boat_index name marina = (i : Int) ∧ i < marina.length) ∧
    (∀ name' : CStr, same_ignoring_case name name' →
      find_boat_index name' marina = find_boat_index name marina) ∧
    find_boat_index "ALICE".toList marina = find_boat_index "alice".toList marina := by
  refine ⟨?_, ?_, ?_, ?_, ?_⟩
  · intro i
    rcases find_boat_index_cases name marina with ⟨h1, h2⟩ | ⟨k, b, h1, h2, h3, h4⟩
    · rw [h1]
      constructor
      · intro h; omega
      · rintro ⟨⟨b, hb, hm⟩, -⟩
        exact absurd ((strcasecmp_eq_zero_iff _ _).2 hm) (h2 b (List.getElem?_mem hb))
    · rw [h1]
      constructor
      · intro h
        have hk : k = i := by omega
        subst hk
        refine ⟨⟨b, h2, (strcasecmp_eq_zero_iff _ _).1 h3⟩, ?_⟩
        intro j hj c hc hm
        exact h4 j hj c hc ((strcasecmp_eq_zero_iff _ _).2 hm)
      · rintro ⟨⟨c, hc, hm⟩, hleast⟩
        rcases Nat.lt_trichotomy k i with hlt | heq | hgt
        · exact absurd ((strcasecmp_eq_zero_iff _ _).1 h3) (hleast k hlt b h2)
        · rw [heq]
        · exact absurd ((strcasecmp_eq_zero_iff _ _).2 hm) (h4 i hgt c hc)
  · rcases find_boat_index_cases name marina with ⟨h1, h2⟩ | ⟨k, b, h1, h2, h3, h4⟩
    · rw [h1]
      refine ⟨fun _ b hb hm => h2 b hb ((strcasecmp_eq_zero_iff _ _).2 hm), fun _ => rfl⟩
    · rw [h1]
      constructor
      · intro h; omega
      · intro h
        exact absurd ((strcasecmp_eq_zero_iff _ _).1 h3) (h b (List.getElem?_mem h2))
  · rcases find_boat_index_cases name marina with ⟨h1, -⟩ | ⟨k, b, h1, h2, -, -⟩
    · exact Or.inl h1
    · exact Or.inr ⟨k, h1, (List.getElem?_eq_some_iff.1 h2).1⟩
  · intro name' h
    exact find_boat_index_from_congr name name' h marina 0
  · exact find_boat_index_from_congr "alice".toList "ALICE".toList (by decide) marina 0

/-- C5, at a concrete inventory: `ALICE` is found at position 1, behind `Al`. -/
theorem find_boat_index_least_match_witness :
    find_boat_index "ALICE".toList
      [{ name := "Al".toList, length := 20, type := .SLIP, location := .slip_number 3,
         amount_owed := .finite false 0 (-149) },
       { name := "alice".toList, length := 35, type := .LAND, location := .bay_letter 'B',
         amount_owed := .finite false 0 (-149) }] = 1 :=
  ((find_boat_index_least_match "ALICE".toList _).1 1).2 (by decide)

/-! ## Removal -/

theorem shift_down_eq : ∀ (todo pre : List Boat) (a : Boat),
    ∃ z, (List.range' pre.length todo.length).foldl
        (fun m i => match m[i + 1]? with
          | some b => m.set i b
          | none => m) (pre ++ a :: todo) = pre ++ todo ++ [z]
  | [], pre, a => ⟨a, by simp⟩
  | b :: t, pre, a => by
    obtain ⟨z, hz⟩ := shift_down_eq t (pre ++ [b]) b
    refine ⟨z, ?_⟩
    have h1 : (pre ++ a :: b :: t)[pre.length + 1]? = some b := by
      rw [List.getElem?_append_right (by omega)]
      have e : pre.length + 1 - pre.length = 1 := by omega
      rw [e]
      simp
    have h2 : (pre ++ a :: b :: t).set pre.length b = pre ++ b :: b :: t := by simp
    simp only [List.length_cons, List.range'_succ, List.foldl_cons, h1, h2]
    simp only [List.length_append, List.length_singleton, List.append_assoc,
      List.singleton_append] at hz
    rw [hz]
    simp

theorem take_append_drop_succ (l : List Boat) (k : Nat) (b : Boat) (h : l[k]? = some b) :
    l = l.take k ++ b :: l.drop (k + 1) ∧ (l.take k).length = k := by
  obtain ⟨hk, rfl⟩ := List.getElem?_eq_some_iff.1 h
  refine ⟨?_, by simp; omega⟩
  rw [← List.drop_eq_getElem_cons hk, List.take_append_drop]

theorem remove_boat_at (name : CStr) (marina : List Boat) (k : Nat) (b : Boat)
    (hfind : find_boat_index name marina = (k : Int)) (hb : marina[k]? = some b) :
    remove_boat name marina = ([], marina.take k ++ marina.drop (k + 1)) := by
  obtain ⟨hsplit, hlen⟩ := take_append_drop_succ marina k b hb
  have hne : ¬ ((k : Int) = -1) := by omega
  have hcount : marina.length - 1 - k = (marina.drop (k + 1)).length := by
    simp only [List.length_drop]
    omega
  obtain ⟨z, hz⟩ := shift_down_eq (marina.drop (k + 1)) (marina.take k) b
  rw [hlen, ← hsplit] at hz
  simp only [remove_boat, hfind, hne, if_false, Int.toNat_ofNat, hcount, hz]
  congr 1
  have hl : marina.length - 1 = (marina.take k ++ marina.drop (k + 1)).length := by
    have := (List.getElem?_eq_some_iff.1 hb).1
    simp only [List.length_append, List.length_take, List.length_drop]
    omega
  rw [hl, List.take_left]

/-- C3. Removal of a present name: when some boat matches `name` ignoring case,
`remove_boat` prints nothing, the count goes down by exactly one, the new inventory is the
old one without the record at the first matching position (the records before it followed
by the records after it, unchanged and in their order), and a sorted inventory stays
sorted. -/
theorem remove_boat_present (name : CStr) (marina : List Boat)
    (h : ∃ b ∈ marina, same_ignoring_case name b.name) :
    ∃ (i : Nat) (b : Boat), find_boat_index name marina = (i : Int) ∧
      marina[i]? = some b ∧ same_ignoring_case name b.name ∧
      (∀ k < i, ∀ c, marina[k]? = some c → ¬ same_ignoring_case name c.name) ∧
      (remove_boat name marina).1 = [] ∧
      (remove_boat name marina).2 = marina.take i ++ marina.drop (i + 1) ∧
      (remove_boat name marina).2.length + 1 = marina.length ∧
      (name_sorted marina → name_sorted (remove_boat name marina).2) := by
  rcases find_boat_index_cases name marina with ⟨-, h2⟩ | ⟨k, b, h1, h2, h3, h4⟩
  · obtain ⟨b, hb, hm⟩ := h
    exact absurd ((strcasecmp_eq_zero_iff _ _).2 hm) (h2 b hb)
  · have hr := remove_boat_at name marina k b h1 h2
    have hk := (List.getElem?_eq_some_iff.1 h2).1
    refine ⟨k, b, h1, h2, (strcasecmp_eq_zero_iff _ _).1 h3, ?_, ?_, ?_, ?_, ?_⟩
    · intro j hj c hc hm
      exact h4 j hj c hc ((strcasecmp_eq_zero_iff _ _).2 hm)
    · rw [hr]
    · rw [hr]
    · rw [hr]
      simp only [List.length_append, List.length_take, List.length_drop]
      omega
    · intro hs
      rw [hr]
      have hsub : (marina.take k ++ marina.drop (k + 1)).Sublist marina := by
        conv => rhs; rw [← List.take_append_drop k marina]
        exact List.Sublist.append (List.Sublist.refl _) (List.drop_sublist_drop_left marina (by omega))
      exact List.Pairwise.sublist hsub hs

/-- C4. Removal of an absent name: when no boat matches `name` ignoring case, `remove_boat`
prints `No boat with that name` and returns the inventory as it was. -/
theorem remove_boat_absent (name : CStr) (marina : List Boat)
    (h : ∀ b ∈ marina, ¬ same_ignoring_case name b.name) :
    remove_boat name marina = ("No boat with that name\n".toList, marina) := by
  rcases find_boat_index_cases name marina with ⟨hfind, -⟩ | ⟨k, b, -, h2, h3, -⟩
  · simp [remove_boat, hfind]
  · exact absurd ((strcasecmp_eq_zero_iff _ _).1 h3) (h b (List.getElem?_mem h2))

/-- C3, on the inventory `[Amy, Pat]` and the name `AMY`. -/
theorem remove_boat_present_witness :
    (∃ b ∈ [amy, pat], same_ignoring_case "AMY".toList b.name) ∧
    ∃ (i : Nat) (b : Boat), find_boat_index "AMY".toList [amy, pat] = (i : Int) ∧
      [amy, pat][i]? = some b ∧ same_ignoring_case "AMY".toList b.name ∧
      (∀ k < i, ∀ c, [amy, pat][k]? = some c → ¬ same_ignoring_case "AMY".toList c.name) ∧
      (remove_boat "AMY".toList [amy, pat]).1 = [] ∧
      (remove_boat "AMY".toList [amy, pat]).2 = [amy, pat].take i ++ [amy, pat].drop (i + 1) ∧
      (remove_boat "AMY".toList [amy, pat]).2.length + 1 = [amy, pat].length ∧
      (name_sorted [amy, pat] → name_sorted (remove_boat "AMY".toList [amy, pat]).2) :=
  ⟨⟨amy, by decide, by decide⟩,
    remove_boat_present "AMY".toList [amy, pat] ⟨amy, by decide, by decide⟩⟩

/-- C4, on the inventory `[Amy, Pat]` and the name `Bob`. -/
theorem remove_boat_absent_witness :
    (∀ b ∈ [amy, pat], ¬ same_ignoring_case "Bob".toList b.name) ∧
    remove_boat "Bob".toList [amy, pat] = ("No boat with that name\n".toList, [amy, pat]) :=
  ⟨by decide, remove_boat_absent "Bob".toList [amy, pat] (by decide)⟩

/-! ## Billing -/

set_option maxRecDepth 100000 in
theorem charge_exact_to_100 : ∀ L : Nat, L ≤ 100 →
    (Float32.mul (Float32.ofInt L) (Float32.lit 125 10)).exactly (125 * L) 10 ∧
    (Float32.mul (Float32.ofInt L) (Float32.lit 140 10)).exactly (140 * L) 10 ∧
    (Float32.mul (Float32.ofInt L) (Float32.lit 250 10)).exactly (250 * L) 10 ∧
    print_float2 (Float32.mul (Float32.ofInt L) (Float32.lit 112 10)) =
      print_cents (1120 * L) := by
  decide

/-- C6. Billing rule: `monthly_charge` is the `float` product of the length and the rate of
the boat's type (12.5, 14.0, 25.0, 11.2), so it depends on type and length only.  For a
30-foot boat it is exactly 375, 420, 750 and 336, printed `375.00`, `420.00`, `750.00` and
`336.00`.  For every length from 0 to 100 the products by 12.5, 14.0 and 25.0 are exact, and
the product by 11.2, rounded to `float`, prints as the exact product with two decimals. -/
theorem monthly_charge_rule (b : Boat) :
    monthly_charge b =
      Float32.mul (Float32.ofInt b.length)
        (match b.type with
          | .SLIP => Float32.lit 125 10
          | .LAND => Float32.lit 140 10
          | .TRAILOR => Float32.lit 250 10
          | .STORAGE => Float32.lit 112 10) ∧
    (∀ b' : Boat, b'.type = b.type ∧ b'.length = b.length →
      monthly_charge b' = monthly_charge b) ∧
    monthly_charge { b with length := 30, type := .SLIP } = Float32.ofInt 375 ∧
    monthly_charge { b with length := 30, type := .LAND } = Float32.ofInt 420 ∧
    monthly_charge { b with length := 30, type := .TRAILOR } = Float32.ofInt 750 ∧
    monthly_charge { b with length := 30, type := .STORAGE } = Float32.ofInt 336 ∧
    print_float2 (monthly_charge { b with length := 30, type := .SLIP }) = "375.00".toList ∧
    print_float2 (monthly_charge { b with length := 30, type := .LAND }) = "420.00".toList ∧
    print_float2 (monthly_charge { b with length := 30, type := .TRAILOR }) = "750.00".toList ∧
    print_float2 (monthly_charge { b with length := 30, type := .STORAGE }) = "336.00".toList ∧
    (∀ L : Nat, L ≤ 100 →
      (monthly_charge { b with length := L, type := .SLIP }).exactly (125 * L) 10 ∧
      (monthly_charge { b with length := L, type := .LAND }).exactly (140 * L) 10 ∧
      (monthly_charge { b with length := L, type := .TRAILOR }).exactly (250 * L) 10 ∧
      print_float2 (monthly_charge { b with length := L, type := .STORAGE }) =
        print_cents (1120 * L)) := by
  refine ⟨?_, ?_, ?_, ?_, ?_, ?_, ?_, ?_, ?_, ?_, ?_⟩
  · cases hb : b.type <;> simp only [monthly_charge, hb]
  · rintro b' ⟨ht, hl⟩
    simp only [monthly_charge, ht, hl]
  · simp only [monthly_charge]; decide
  · simp only [monthly_charge]; decide
  · simp only [monthly_charge]; decide
  · simp only [monthly_charge]; decide
  · simp only [monthly_charge]; decide
  · simp only [monthly_charge]; decide
  · simp only [monthly_charge]; decide
  · simp only [monthly_charge]; decide
  · intro L hL
    simp only [monthly_charge]
    exact charge_exact_to_100 L hL

/-- C6, at the sample boat `Amy` and a boat that differs from it in everything but type
and length. -/
theorem monthly_charge_rule_witness :
    monthly_charge { pat with type := .LAND, length := 30 } = monthly_charge amy :=
  (monthly_charge_rule amy).2.1 { pat with type := .LAND, length := 30 } ⟨by decide, by decide⟩

theorem modify_append_cons (f : Boat → Boat) (b : Boat) (rest : List Boat) :
    ∀ pre : List Boat, (pre ++ b :: rest).modify f pre.length = pre ++ f b :: rest
  | [] => by simp
  | a :: pre => by
    simp only [List.cons_append, List.length_cons, List.modify_succ_cons,
      modify_append_cons f b rest pre]

theorem modify_range_eq_map (f : Boat → Boat) : ∀ (rest pre : List Boat),
    (List.range' pre.length rest.length).foldl (fun m i => m.modify f i) (pre ++ rest) =
      pre ++ rest.map f
  | [], pre => by simp
  | b :: rest, pre => by
    have h1 := modify_append_cons f b rest pre
    have ih := modify_range_eq_map f rest (pre ++ [f b])
    simp only [List.length_append, List.length_singleton, List.append_assoc,
      List.singleton_append] at ih
    simp only [List.length_cons, List.range'_succ, List.foldl_cons, h1, ih, List.map_cons]

theorem update_month_eq_map (marina : List Boat) :
    update_month marina = marina.map
      (fun b => { b with amount_owed := Float32.add b.amount_owed (monthly_charge b) }) := by
  have h := modify_range_eq_map
    (fun b => { b with amount_owed := Float32.add b.amount_owed (monthly_charge b) }) marina []
  simpa [update_month, List.range_eq_range'] using h

/-- C7. Month-end billing: `update_month` keeps the count, and the boat at every position
is the boat that was there with `monthly_charge` of it added (in `float`) to its amount
owed; name, length, type and location are the same. -/
theorem update_month_effect (marina : List Boat) :
    (update_month marina).length = marina.length ∧
    ∀ (i : Nat) (b : Boat), marina[i]? = some b →
      (update_month marina)[i]? =
        some { name := b.name, length := b.length, type := b.type, location := b.location,
               amount_owed := Float32.add b.amount_owed (monthly_charge b) } := by
  rw [update_month_eq_map]
  refine ⟨by simp, ?_⟩
  intro i b hb
  simp [List.getElem?_map, hb]

/-- C7, on the inventory `[Amy, Pat]`: Pat then owes 100 + 250 = 350. -/
theorem update_month_effect_witness :
    (update_month [amy, pat])[1]? = some { pat with amount_owed := Float32.ofInt 350 } :=
  (update_month_effect [amy, pat]).2 1 pat (by decide)

/-! ## Payments -/

theorem float_sub_self (s : Bool) (m : Nat) (e : Int) :
    Float32.sub (.finite s m e) (.finite s m e) = .finite false 0 (-149) := by
  have hsum : Float32.scaled s m e (min e e) + Float32.scaled (!s) m e (min e e) = 0 := by
    cases s <;> simp [Float32.scaled]
  simp only [Float32.sub, Float32.neg, Float32.add, hsum, if_true]
  cases s <;> simp

theorem accept_payment_at (name : CStr) (amount : Float32) (marina : List Boat) (k : Nat)
    (b : Boat) (hfind : find_boat_index name marina = (k : Int)) (hb : marina[k]? = some b) :
    accept_payment name amount marina =
      marina.take k ++
        { b with amount_owed := Float32.sub b.amount_owed amount } :: marina.drop (k + 1) := by
  obtain ⟨hsplit, hlen⟩ := take_append_drop_succ marina k b hb
  have hne : (k : Int) ≠ -1 := by omega
  have hm := modify_append_cons
    (fun b => { b with amount_owed := Float32.sub b.amount_owed amount }) b
    (marina.drop (k + 1)) (marina.take k)
  rw [hlen, ← hsplit] at hm
  simp only [accept_payment, hfind, hne, ne_eq, not_false_eq_true, if_true, Int.toNat_ofNat, hm]

theorem find_boat_index_present (name : CStr) (marina : List Boat)
    (h : ∃ b ∈ marina, same_ignoring_case name b.name) :
    ∃ (i : Nat) (b : Boat), find_boat_index name marina = (i : Int) ∧
      marina[i]? = some b ∧ same_ignoring_case name b.name ∧
      ∀ k < i, ∀ c, marina[k]? = some c → ¬ same_ignoring_case name c.name := by
  rcases find_boat_index_cases name marina with ⟨-, h2⟩ | ⟨k, b, h1, h2, h3, h4⟩
  · obtain ⟨b, hb, hm⟩ := h
    exact absurd ((strcasecmp_eq_zero_iff _ _).2 hm) (h2 b hb)
  · refine ⟨k, b, h1, h2, (strcasecmp_eq_zero_iff _ _).1 h3, ?_⟩
    intro j hj c hc hm
    exact h4 j hj c hc ((strcasecmp_eq_zero_iff _ _).2 hm)

theorem find_boat_index_absent (name : CStr) (marina : List Boat)
    (h : ∀ b ∈ marina, ¬ same_ignoring_case name b.name) :
    find_boat_index name marina = -1 := by
  rcases find_boat_index_cases name marina with ⟨hfind, -⟩ | ⟨k, b, -, h2, h3, -⟩
  · exact hfind
  · exact absurd ((strcasecmp_eq_zero_iff _ _).1 h3) (h b (List.getElem?_mem h2))

/-- C8, as amended. Payment applied: when some boat matches `name` ignoring case,
`accept_payment` replaces the amount owed of the first matching boat by the `float`
difference of the old amount owed and `amount`, whatever the amount, and leaves every other
boat and every other field as it was; when the amount owed is finite, paying exactly that
amount leaves a balance of zero. -/
theorem accept_payment_applied (name : CStr) (amount : Float32) (marina : List Boat)
    (h : ∃ b ∈ marina, same_ignoring_case name b.name) :
    ∃ (i : Nat) (b : Boat), find_boat_index name marina = (i : Int) ∧
      marina[i]? = some b ∧ same_ignoring_case name b.name ∧
      (∀ k < i, ∀ c, marina[k]? = some c → ¬ same_ignoring_case name c.name) ∧
      accept_payment name amount marina =
        marina.take i ++
          { name := b.name, length := b.length, type := b.type, location := b.location,
            amount_owed := Float32.sub b.amount_owed amount } :: marina.drop (i + 1) ∧
      (∀ (s : Bool) (m : Nat) (e : Int), b.amount_owed = .finite s m e →
        amount = b.amount_owed →
        accept_payment name amount marina =
          marina.take i ++
            { name := b.name, length := b.length, type := b.type, location := b.location,
              amount_owed := .finite false 0 (-149) } :: marina.drop (i + 1)) := by
  obtain ⟨i, b, h1, h2, h3, h4⟩ := find_boat_index_present name marina h
  refine ⟨i, b, h1, h2, h3, h4, accept_payment_at name amount marina i b h1 h2, ?_⟩
  intro s m e hfin hamt
  rw [accept_payment_at name amount marina i b h1 h2, hamt, hfin, float_sub_self]

/-- C8, on the inventory `[Amy, Pat]`, the name `pat` and the amount 100. -/
theorem accept_payment_applied_witness :
    (∃ b ∈ [amy, pat], same_ignoring_case "pat".toList b.name) ∧
    ∃ (i : Nat) (b : Boat), find_boat_index "pat".toList [amy, pat] = (i : Int) ∧
      [amy, pat][i]? = some b ∧ same_ignoring_case "pat".toList b.name ∧
      (∀ k < i, ∀ c, [amy, pat][k]? = some c → ¬ same_ignoring_case "pat".toList c.name) ∧
      accept_payment "pat".toList (Float32.ofInt 100) [amy, pat] =
        [amy, pat].take i ++
          { name := b.name, length := b.length, type := b.type, location := b.location,
            amount_owed := Float32.sub b.amount_owed (Float32.ofInt 100) } ::
              [amy, pat].drop (i + 1) ∧
      (∀ (s : Bool) (m : Nat) (e : Int), b.amount_owed = .finite s m e →
        Float32.ofInt 100 = b.amount_owed →
        accept_payment "pat".toList (Float32.ofInt 100) [amy, pat] =
          [amy, pat].take i ++
            { name := b.name, length := b.length, type := b.type, location := b.location,
              amount_owed := .finite false 0 (-149) } :: [amy, pat].drop (i + 1)) :=
  ⟨⟨pat, by decide, by decide⟩,
    accept_payment_applied "pat".toList (Float32.ofInt 100) [amy, pat]
      ⟨pat, by decide, by decide⟩⟩

/-- C8 as stated fails on an infinite balance, which the record `Pat,20,slip,5,inf` gives:
the amount `inf` is not greater than the amount owed `inf`, so the menu accepts it, and
paying it leaves a NaN, not zero. -/
theorem accept_payment_infinite_balance :
    add_boat blank "Pat,20,slip,5,inf".toList [] = [{ pat with amount_owed := .inf false }] ∧
    Float32.gt (.inf false) (.inf false) = false ∧
    accept_payment "Pat".toList (.inf false) [{ pat with amount_owed := .inf false }] =
      [{ pat with amount_owed := .nan }] ∧
    payment_option "Pat".toList (.inf false) [{ pat with amount_owed := .inf false }] =
      ([], [{ pat with amount_owed := .nan }]) ∧
    accept_payment "Pat".toList (.inf false) [{ pat with amount_owed := .inf false }] ≠
      [{ pat with amount_owed := .finite false 0 (-149) }] := by
  decide

/-- C9. Over-payment refused: when some boat matches `name` and `amount` is greater than
the amount owed by the first matching boat, the payment branch prints
`That is more than the amount owed, $` with that amount and leaves the inventory, the
balance included, as it was. -/
theorem payment_option_exceeds (name : CStr) (amount : Float32) (marina : List Boat)
    (h : ∃ b ∈ marina, same_ignoring_case name b.name) :
    ∃ (i : Nat) (b : Boat), find_boat_index name marina = (i : Int) ∧
      marina[i]? = some b ∧ same_ignoring_case name b.name ∧
      (Float32.gt amount b.amount_owed = true →
        payment_option name amount marina =
          ("That is more than the amount owed, $".toList ++ print_float2 b.amount_owed ++ ['\n'],
            marina)) := by
  obtain ⟨i, b, h1, h2, h3, -⟩ := find_boat_index_present name marina h
  refine ⟨i, b, h1, h2, h3, ?_⟩
  intro hgt
  have hne : ¬ ((i : Int) = -1) := by omega
  simp only [payment_option, h1, hne, if_false, Int.toNat_ofNat, h2, hgt, if_true]

/-- C9, on the inventory `[Amy, Pat]`: 100.5 is refused for Pat, who owes 100. -/
theorem payment_option_exceeds_witness :
    (∃ b ∈ [amy, pat], same_ignoring_case "PAT".toList b.name) ∧
    payment_option "PAT".toList (Float32.lit 1005 10) [amy, pat] =
      ("That is more than the amount owed, $100.00\n".toList, [amy, pat]) := by
  refine ⟨⟨pat, by decide, by decide⟩, ?_⟩
  obtain ⟨i, b, h1, h2, -, h4⟩ :=
    payment_option_exceeds "PAT".toList (Float32.lit 1005 10) [amy, pat]
      ⟨pat, by decide, by decide⟩
  have hi : i = 1 := by
    have : find_boat_index "PAT".toList [amy, pat] = 1 := by decide
    omega
  subst hi
  have hb : b = pat := by
    have : [amy, pat][1]? = some pat := by decide
    rw [this] at h2
    exact (Option.some.inj h2).symm
  subst hb
  exact h4 (by decide)

/-- C10. Payment to an absent name: when no boat matches `name` ignoring case, the payment
branch prints `No boat with that name` and leaves the inventory as it was, whatever the
amount. -/
theorem payment_option_absent (name : CStr) (amount : Float32) (marina : List Boat)
    (h : ∀ b ∈ marina, ¬ same_ignoring_case name b.name) :
    payment_option name amount marina = ("No boat with that name\n".toList, marina) := by
  simp [payment_option, find_boat_index_absent name marina h]

/-- C10, on the inventory `[Amy, Pat]` and the name `Bob`. -/
theorem payment_option_absent_witness :
    (∀ b ∈ [amy, pat], ¬ same_ignoring_case "Bob".toList b.name) ∧
    payment_option "Bob".toList (Float32.ofInt 5) [amy, pat] =
      ("No boat with that name\n".toList, [amy, pat]) :=
  ⟨by decide, payment_option_absent "Bob".toList (Float32.ofInt 5) [amy, pat] (by decide)⟩

/-! ## Printing and reading numbers -/

theorem digit_char_toNat (d : Nat) : (digit_char d).toNat = 48 + d % 10 := by
  have h : d % 10 < 10 := Nat.mod_lt _ (by decide)
  unfold digit_char
  generalize d % 10 = r at h
  interval_cases r <;> rfl

theorem isdigit_digit_char (d : Nat) : isdigit (digit_char d) = true := by
  have h := digit_char_toNat d
  have h2 : d % 10 < 10 := Nat.mod_lt _ (by decide)
  have h0 : '0'.toNat = 48 := by decide
  have h9 : '9'.toNat = 57 := by decide
  simp only [isdigit, h, h0, h9, decide_eq_true_eq]
  omega

theorem scan_digits_digit_char (d : Nat) (s : CStr) (acc k : Nat) :
    scan_digits (digit_char d :: s) acc k = scan_digits s (acc * 10 + d % 10) (k + 1) := by
  have h0 : '0'.toNat = 48 := by decide
  simp only [scan_digits, isdigit_digit_char, if_true, digit_char_toNat, h0]
  congr 1
  omega

theorem scan_digits_utoa_aux : ∀ (fuel n : Nat) (accl rest : CStr), n < fuel →
    ∃ d : Nat, 1 ≤ d ∧ ∀ a k : Nat,
      scan_digits (utoa_aux fuel n accl ++ rest) a k =
        scan_digits (accl ++ rest) (a * 10 ^ d + n) (k + d)
  | 0, _, _, _, h => by omega
  | fuel + 1, n, accl, rest, h => by
    simp only [utoa_aux]
    split_ifs with hn
    · refine ⟨1, le_refl _, ?_⟩
      intro a k
      have : n % 10 = n := by omega
      simp only [List.cons_append, scan_digits_digit_char, this, pow_one]
    · obtain ⟨d, hd, ih⟩ := scan_digits_utoa_aux fuel (n / 10) (digit_char n :: accl) rest
        (by omega)
      refine ⟨d + 1, by omega, ?_⟩
      intro a k
      rw [ih a k]
      simp only [List.cons_append, scan_digits_digit_char]
      have e : (a * 10 ^ d + n / 10) * 10 + n % 10 = a * 10 ^ (d + 1) + n := by
        rw [pow_succ]
        have := Nat.div_add_mod n 10
        nlinarith
      rw [e, Nat.add_assoc]

theorem scan_digits_stop (s : CStr) (a k : Nat) (h : ∀ c ∈ s.head?, isdigit c = false) :
    scan_digits s a k = (a, k, s) := by
  cases s with
  | nil => rfl
  | cons c s =>
    have hc : isdigit c = false := h c (by simp)
    simp [scan_digits, hc]

theorem scan_digits_utoa (n : Nat) (rest : CStr) (h : ∀ c ∈ rest.head?, isdigit c = false) :
    ∃ d : Nat, 1 ≤ d ∧ scan_digits (utoa n ++ rest) 0 0 = (n, d, rest) := by
  obtain ⟨d, hd, hs⟩ := scan_digits_utoa_aux (n + 1) n [] rest (by omega)
  refine ⟨d, hd, ?_⟩
  have := hs 0 0
  simp only [List.nil_append, Nat.zero_mul, Nat.zero_add] at this
  rw [utoa, this, scan_digits_stop rest n d h]

theorem utoa_aux_digits : ∀ (fuel n : Nat) (accl : CStr),
    (∀ c ∈ accl, isdigit c = true) → ∀ c ∈ utoa_aux fuel n accl, isdigit c = true
  | 0, _, _, h => by simpa [utoa_aux] using h
  | fuel + 1, n, accl, h => by
    have hcons : ∀ c ∈ digit_char n :: accl, isdigit c = true := by
      intro c hc
      rcases List.mem_cons.1 hc with rfl | hc
      · exact isdigit_digit_char n
      · exact h c hc
    simp only [utoa_aux]
    split_ifs
    · exact hcons
    · exact utoa_aux_digits fuel (n / 10) _ hcons

theorem utoa_aux_length : ∀ (fuel n d : Nat) (accl : CStr), 1 ≤ d → n < 10 ^ d →
    accl.length < (utoa_aux (fuel + 1) n accl).length ∧
      (utoa_aux (fuel + 1) n accl).length ≤ accl.length + d
  | 0, n, d, accl, hd, _ => by
    simp only [utoa_aux]
    split_ifs <;> simp <;> omega
  | fuel + 1, n, d, accl, hd, hn => by
    rw [utoa_aux]
    split_ifs with h0
    · simp
      omega
    · have hd2 : 2 ≤ d := by
        by_contra hlt
        have : d = 1 := by omega
        subst this
        omega
      have hn2 : n / 10 < 10 ^ (d - 1) := by
        have e : 10 ^ d = 10 ^ (d - 1) * 10 := by
          rw [← pow_succ]
          congr 1
          omega
        rw [e] at hn
        exact Nat.div_lt_of_lt_mul (by omega)
      have ih := utoa_aux_length fuel (n / 10) (d - 1) (digit_char n :: accl) (by omega) hn2
      simp only [List.length_cons] at ih
      omega

theorem utoa_digits (n : Nat) : ∀ c ∈ utoa n, isdigit c = true :=
  utoa_aux_digits (n + 1) n [] (by simp)

theorem utoa_length (n d : Nat) (hd : 1 ≤ d) (hn : n < 10 ^ d) :
    0 < (utoa n).length ∧ (utoa n).length ≤ d := by
  have h := utoa_aux_length n n d [] hd hn
  simpa [utoa] using h

theorem isdigit_ne (c d : Char) (h : isdigit c = true) (hd : isdigit d = false) : c ≠ d := by
  rintro rfl
  rw [h] at hd
  cases hd

theorem isspace_of_isdigit (c : Char) (h : isdigit c = true) : isspace c = false := by
  simp [isspace, isdigit_ne c ' ' h (by decide), isdigit_ne c '\t' h (by decide),
    isdigit_ne c '\n' h (by decide), isdigit_ne c '\x0b' h (by decide),
    isdigit_ne c '\x0c' h (by decide), isdigit_ne c '\r' h (by decide)]

theorem utoa_head (n : Nat) : ∃ (c : Char) (s : CStr), utoa n = c :: s ∧ isdigit c = true := by
  have hpow : n < 10 ^ (n + 1) := by
    have := @Nat.lt_pow_self 10 (by decide) (n + 1)
    omega
  have hl := (utoa_length n (n + 1) (by omega) hpow).1
  cases hu : utoa n with
  | nil => simp [hu] at hl
  | cons c s => exact ⟨c, s, rfl, utoa_digits n c (by simp [hu])⟩

theorem scan_sign_digit (c : Char) (s : CStr) (h : isdigit c = true) :
    scan_sign (c :: s) = (false, c :: s) := by
  have h1 := isdigit_ne c '-' h (by decide)
  have h2 := isdigit_ne c '+' h (by decide)
  unfold scan_sign
  split
  · rename_i heq
    simp only [List.cons.injEq] at heq
    exact absurd heq.1 h1
  · rename_i heq
    simp only [List.cons.injEq] at heq
    exact absurd heq.1 h2
  · rfl

theorem skip_space_sign_utoa (n : Nat) (rest : CStr) :
    scan_sign (skip_space (utoa n ++ rest)) = (false, utoa n ++ rest) ∧
    scan_sign (skip_space ('-' :: (utoa n ++ rest))) = (true, utoa n ++ rest) := by
  obtain ⟨c, s, hu, hc⟩ := utoa_head n
  constructor
  · rw [hu]
    simp only [List.cons_append, skip_space, isspace_of_isdigit c hc, Bool.false_eq_true,
      if_false]
    exact scan_sign_digit c _ hc
  · have hm : isspace '-' = false := by decide
    simp only [skip_space, hm, Bool.false_eq_true, if_false]
    rfl

theorem wrap_int_of_range (i : Int) (h : -2147483648 ≤ i ∧ i ≤ 2147483647) :
    wrap_int i = i := by
  unfold wrap_int
  omega

theorem scan_number_print_int (i : Int) (rest : CStr)
    (hrest : ∀ c ∈ rest.head?, isdigit c = false) :
    ∃ d : Nat, 1 ≤ d ∧
      (fun (p : Bool × CStr) => (p.1, scan_digits p.2 0 0))
        (scan_sign (skip_space (print_int i ++ rest))) =
      (decide (i < 0), i.natAbs, d, rest) := by
  obtain ⟨d, hd, hs⟩ := scan_digits_utoa i.natAbs rest hrest
  refine ⟨d, hd, ?_⟩
  have hsk := skip_space_sign_utoa i.natAbs rest
  unfold print_int
  split_ifs with hneg
  · simp only [List.cons_append, hsk.2, hs, hneg, decide_True]
  · simp only [hsk.1, hs, hneg, decide_False]

theorem scan_int_print_int (i : Int) (rest : CStr)
    (hi : -2147483648 ≤ i ∧ i ≤ 2147483647)
    (hrest : ∀ c ∈ rest.head?, isdigit c = false) :
    scan_int (print_int i ++ rest) = some (i, rest) := by
  obtain ⟨d, hd, hs⟩ := scan_number_print_int i rest hrest
  simp only [Prod.mk.injEq] at hs
  obtain ⟨h1, h2⟩ := hs
  have hd0 : d ≠ 0 := by omega
  have hval : (if decide (i < 0) = true then -((i.natAbs : Nat) : Int) else (i.natAbs : Int)) = i := by
    split_ifs with hneg
    · simp only [decide_eq_true_eq] at hneg
      omega
    · simp only [decide_eq_true_eq] at hneg
      omega
  unfold scan_int
  rw [show scan_sign (skip_space (print_int i ++ rest)) =
    ((scan_sign (skip_space (print_int i ++ rest))).1,
      (scan_sign (skip_space (print_int i ++ rest))).2) from rfl]
  simp only [h1, h2, hd0, if_false, hval, wrap_int_of_range i hi]

theorem atoi_print_int (i : Int) (hi : -2147483648 ≤ i ∧ i ≤ 2147483647) :
    atoi (print_int i) = i := by
  obtain ⟨d, hd, hs⟩ := scan_number_print_int i [] (by simp)
  simp only [List.append_nil, Prod.mk.injEq] at hs
  obtain ⟨h1, h2⟩ := hs
  have hval : (if decide (i < 0) = true then -((i.natAbs : Nat) : Int) else (i.natAbs : Int)) = i := by
    split_ifs with hneg
    · simp only [decide_eq_true_eq] at hneg
      omega
    · simp only [decide_eq_true_eq] at hneg
      omega
  unfold atoi
  rw [show scan_sign (skip_space (print_int i)) =
    ((scan_sign (skip_space (print_int i))).1, (scan_sign (skip_space (print_int i))).2) from rfl]
  simp only [h1, h2, hval, wrap_int_of_range i hi]

/-! ## Writing a line and reading it back -/

theorem takeWhile_ne_append (sep : Char) (rest : CStr) : ∀ (tok : CStr), sep ∉ tok →
    (tok ++ sep :: rest).takeWhile (fun c => c ≠ sep) = tok
  | [], _ => by simp
  | c :: tok, h => by
    simp only [List.mem_cons, not_or] at h
    have hc : c ≠ sep := fun e => h.1 e.symm
    have ih := takeWhile_ne_append sep rest tok h.2
    rw [List.cons_append, List.takeWhile_cons_of_pos (by simpa using hc), ih]

theorem scan_field_append (w : Nat) (tok rest : CStr) (h : field_text w tok) :
    scan_field w (tok ++ ',' :: rest) = some (tok, ',' :: rest) := by
  obtain ⟨hne, hlen, hcomma, -, -⟩ := h
  simp only [scan_field, takeWhile_ne_append ',' rest tok hcomma, List.take_of_length_le hlen,
    hne, if_false, List.drop_left]

theorem chop_newline_append (body : CStr) (h : '\n' ∉ body) :
    chop_newline (body ++ ['\n']) = body :=
  takeWhile_ne_append '\n' [] body h

theorem print_int_chars (i : Int) : ∀ c ∈ print_int i, c = '-' ∨ isdigit c = true := by
  intro c hc
  unfold print_int at hc
  split_ifs at hc
  · rcases List.mem_cons.1 hc with rfl | hc
    · exact Or.inl rfl
    · exact Or.inr (utoa_digits _ c hc)
  · exact Or.inr (utoa_digits _ c hc)

theorem not_mem_print_int (i : Int) (d : Char) (hd : isdigit d = false) (hm : d ≠ '-') :
    d ∉ print_int i := by
  intro h
  rcases print_int_chars i d h with rfl | hdig
  · exact hm rfl
  · rw [hd] at hdig
    cases hdig

theorem field_text_print_int (i : Int) (hi : int_range i) : field_text 31 (print_int i) := by
  have hl := utoa_length i.natAbs 10 (by decide) (by unfold int_range at hi; omega)
  refine ⟨?_, ?_, not_mem_print_int i _ (by decide) (by decide),
    not_mem_print_int i _ (by decide) (by decide), not_mem_print_int i _ (by decide) (by decide)⟩
  · unfold print_int
    split_ifs
    · simp
    · intro h
      rw [h] at hl
      simp at hl
  · unfold print_int
    split_ifs
    · simp only [List.length_cons]
      omega
    · omega

theorem newline_not_mem_print_float2 (a : Float32) : '\n' ∉ print_float2 a := by
  cases a with
  | nan => decide
  | inf s => cases s <;> decide
  | finite s m e =>
    have hbody : ∀ n : Nat, '\n' ∉ print_cents n := by
      intro n h
      unfold print_cents at h
      rcases List.mem_append.1 h with h | h
      · have := utoa_digits _ _ h
        revert this
        decide
      · simp only [List.mem_cons, List.mem_singleton, List.not_mem_nil, or_false] at h
        rcases h with h | h | h
        · revert h
          decide
        · have := isdigit_digit_char (n / 10)
          rw [← h] at this
          revert this
          decide
        · have := isdigit_digit_char n
          rw [← h] at this
          revert this
          decide
    simp only [print_float2]
    split_ifs
    · intro h
      rcases List.mem_cons.1 h with h | h
      · revert h
        decide
      · exact hbody _ h
    · exact hbody _

theorem sscanf_boat_fields (u : Uninit) (name typ detail amt rest : CStr) (len : Int)
    (a : Float32) (hname : field_text 127 name) (hlen : int_range len)
    (htyp : field_text 15 typ) (hdet : field_text 31 detail)
    (hamt : scan_float amt = some (a, rest)) :
    sscanf_boat (name ++ ',' :: (print_int len ++ ',' :: (typ ++ ',' :: (detail ++ ',' :: amt))))
        u =
      { name := name, length := len, type_str := typ, extra := detail, amount_owed := a } := by
  have h1 := scan_field_append 127 name
    (print_int len ++ ',' :: (typ ++ ',' :: (detail ++ ',' :: amt))) hname
  have h2 := scan_int_print_int len (',' :: (typ ++ ',' :: (detail ++ ',' :: amt))) hlen
    (by simp; decide)
  have h3 := scan_field_append 15 typ (detail ++ ',' :: amt) htyp
  have h4 := scan_field_append 31 detail amt hdet
  simp only [sscanf_boat, h1, scan_comma, Option.some_bind, h2, h3, h4, hamt]

theorem not_mem_body (x : Char) (name typ detail amt : CStr) (len : Int)
    (hx : isdigit x = false) (hm : x ≠ '-') (hc : x ≠ ',')
    (h1 : x ∉ name) (h2 : x ∉ typ) (h3 : x ∉ detail) (h4 : x ∉ amt) :
    x ∉ name ++ ',' :: (print_int len ++ ',' :: (typ ++ ',' :: (detail ++ ',' :: amt))) := by
  have h5 := not_mem_print_int len x hx hm
  simp only [List.mem_append, List.mem_cons, not_or]
  exact ⟨h1, hc, h5, hc, h2, hc, h3, hc, h4⟩

theorem round_trip_fields (u : Uninit) (name typ detail : CStr) (len : Int) (a : Float32)
    (hname : field_text 127 name) (hlen : int_range len) (htyp : field_text 15 typ)
    (hdet : field_text 31 detail) (hamt : scan_float (print_float2 a) = some (a, [])) :
    sscanf_boat
        (chop_newline
          (name ++ [','] ++ print_int len ++ [','] ++ (typ ++ [',']) ++ detail ++
            ([','] ++ print_float2 a ++ ['\n']))) u =
      { name := name, length := len, type_str := typ, extra := detail, amount_owed := a } := by
  have hshape : name ++ [','] ++ print_int len ++ [','] ++ (typ ++ [',']) ++ detail ++
      ([','] ++ print_float2 a ++ ['\n']) =
      (name ++ ',' :: (print_int len ++ ',' :: (typ ++ ',' :: (detail ++ ',' ::
        print_float2 a)))) ++ ['\n'] := by
    simp
  have hnl := not_mem_body '\n' name typ detail (print_float2 a) len (by decide) (by decide)
    (by decide) hname.2.2.2.1 htyp.2.2.2.1 hdet.2.2.2.1 (newline_not_mem_print_float2 a)
  rw [hshape, chop_newline_append _ hnl]
  exact sscanf_boat_fields u name typ detail _ [] len a hname hlen htyp hdet hamt

/-! ### Amounts with two decimals -/

theorem bit_length_aux_zero : ∀ fuel : Nat, bit_length_aux fuel 0 = 0
  | 0 => rfl
  | _ + 1 => by simp [bit_length_aux]

theorem bit_length_aux_bounds : ∀ (fuel n : Nat), n ≤ fuel →
    n < 2 ^ bit_length_aux fuel n ∧ (0 < n → 2 ^ bit_length_aux fuel n ≤ 2 * n)
  | 0, n, h => by
    have : n = 0 := by omega
    subst this
    simp [bit_length_aux]
  | fuel + 1, n, h => by
    simp only [bit_length_aux]
    split_ifs with h0
    · subst h0
      simp
    · have ih := bit_length_aux_bounds fuel (n / 2) (by omega)
      rw [pow_succ]
      refine ⟨by omega, fun _ => ?_⟩
      by_cases h1 : n / 2 = 0
      · rw [h1, bit_length_aux_zero]
        simp only [pow_zero]
        omega
      · have := ih.2 (by omega)
        omega

theorem bit_length_bounds (n : Nat) (hn : 0 < n) :
    n < 2 ^ bit_length n ∧ 2 ^ bit_length n ≤ 2 * n :=
  ⟨(bit_length_aux_bounds n n (le_refl _)).1, (bit_length_aux_bounds n n (le_refl _)).2 hn⟩

theorem floor_log2_le (num den : Nat) (hnum : 0 < num) (hden : 0 < den) :
    den * 2 ^ (floor_log2 num den).toNat ≤ num * 2 ^ (-(floor_log2 num den)).toNat := by
  obtain ⟨hn1, hn2⟩ := bit_length_bounds num hnum
  obtain ⟨hd1, hd2⟩ := bit_length_bounds den hden
  unfold floor_log2
  simp only
  generalize bit_length num = B at hn1 hn2 ⊢
  generalize bit_length den = D at hd1 hd2 ⊢
  rcases Nat.lt_or_ge B D with hlt | hge
  · obtain ⟨j, rfl⟩ : ∃ j, D = B + j + 1 := ⟨D - B - 1, by omega⟩
    have h0 : ¬ (0 : Int) ≤ ((B : Nat) : Int) - ((B + j + 1 : Nat) : Int) := by omega
    have e1 : (-(((B : Nat) : Int) - ((B + j + 1 : Nat) : Int))).toNat = j + 1 := by omega
    simp only [h0, if_false, e1]
    have hpow : 2 ^ (B + j + 1) = 2 ^ B * 2 ^ (j + 1) := by rw [pow_add, pow_add, pow_add]; ring
    by_cases hb : num * 2 ^ (j + 1) < den
    · have e2 : (((B : Nat) : Int) - ((B + j + 1 : Nat) : Int) - 1).toNat = 0 := by omega
      have e3 : (-(((B : Nat) : Int) - ((B + j + 1 : Nat) : Int) - 1)).toNat = j + 2 := by omega
      simp only [hb, decide_True, if_true, e2, e3, pow_zero, Nat.mul_one]
      have : 2 ^ B * 2 ^ (j + 1) ≤ 2 * num * 2 ^ (j + 1) := Nat.mul_le_mul_right _ hn2
      have e4 : num * 2 ^ (j + 2) = 2 * num * 2 ^ (j + 1) := by rw [pow_succ]; ring
      omega
    · have e2 : (((B : Nat) : Int) - ((B + j + 1 : Nat) : Int)).toNat = 0 := by omega
      simp only [hb, decide_False, Bool.false_eq_true, if_false, e2, e1, pow_zero, Nat.mul_one]
      omega
  · obtain ⟨j, rfl⟩ : ∃ j, B = D + j := ⟨B - D, by omega⟩
    have h0 : (0 : Int) ≤ ((D + j : Nat) : Int) - ((D : Nat) : Int) := by omega
    have e1 : (((D + j : Nat) : Int) - ((D : Nat) : Int)).toNat = j := by omega
    simp only [h0, if_true, e1]
    by_cases hb : num < den * 2 ^ j
    · simp only [hb, decide_True, if_true]
      cases j with
      | zero =>
        have e2 : (((D + 0 : Nat) : Int) - ((D : Nat) : Int) - 1).toNat = 0 := by omega
        have e3 : (-(((D + 0 : Nat) : Int) - ((D : Nat) : Int) - 1)).toNat = 1 := by omega
        simp only [e2, e3, pow_zero, pow_one, Nat.mul_one]
        simp only [Nat.add_zero] at hn2
        omega
      | succ i =>
        have e2 : (((D + (i + 1) : Nat) : Int) - ((D : Nat) : Int) - 1).toNat = i := by omega
        have e3 : (-(((D + (i + 1) : Nat) : Int) - ((D : Nat) : Int) - 1)).toNat = 0 := by omega
        simp only [e2, e3, pow_zero, Nat.mul_one]
        have hpow : 2 ^ (D + (i + 1)) = 2 * (2 ^ D * 2 ^ i) := by
          rw [pow_add, pow_succ]; ring
        have : den * 2 ^ i ≤ 2 ^ D * 2 ^ i := Nat.mul_le_mul_right _ (by omega)
        omega
    · have e3 : (-(((D + j : Nat) : Int) - ((D : Nat) : Int))).toNat = 0 := by omega
      simp only [hb, decide_False, Bool.false_eq_true, if_false, e1, e3, pow_zero, Nat.mul_one]
      omega

theorem div_round_even_near (n d : Nat) (hd : 0 < d) :
    2 * (div_round_even n d * d) ≤ 2 * n + d ∧ 2 * n ≤ 2 * (div_round_even n d * d) + d := by
  have hn := Nat.div_add_mod n d
  have hr := Nat.mod_lt n hd
  have hc : d * (n / d) = n / d * d := Nat.mul_comm _ _
  have hs : (n / d + 1) * d = n / d * d + d := Nat.succ_mul _ _
  unfold div_round_even
  simp only
  split_ifs with h
  · rw [hs]
    omega
  · omega

theorem div_round_even_eq (n d k : Nat) (hd : 0 < d) (h1 : 2 * n < 2 * (k * d) + d)
    (h2 : 2 * (k * d) < 2 * n + d) : div_round_even n d = k := by
  obtain ⟨h3, h4⟩ := div_round_even_near n d hd
  rcases Nat.lt_trichotomy (div_round_even n d) k with hlt | heq | hgt
  · have h5 : (div_round_even n d + 1) * d ≤ k * d := Nat.mul_le_mul_right _ hlt
    rw [Nat.succ_mul] at h5
    omega
  · exact heq
  · have h5 : (k + 1) * d ≤ div_round_even n d * d := Nat.mul_le_mul_right _ hgt
    rw [Nat.succ_mul] at h5
    omega

theorem round_two_decimals (neg : Bool) (k : Nat) (hk : k < 13107200) :
    ∃ (m t : Nat), round_nearest_even neg k 100 = .finite neg m (-(t : Int)) ∧
      div_round_even (m * 100) (2 ^ t) = k := by
  by_cases hk0 : k = 0
  · subst hk0
    refine ⟨0, 149, by simp [round_nearest_even], ?_⟩
    simp [div_round_even]
  · have hlg : floor_log2 k 100 ≤ 16 := by
      by_contra hcon
      have hle := floor_log2_le k 100 (by omega) (by decide)
      obtain ⟨j, hj⟩ : ∃ j : Nat, floor_log2 k 100 = ((17 + j : Nat) : Int) :=
        ⟨(floor_log2 k 100 - 17).toNat, by omega⟩
      have e1 : (floor_log2 k 100).toNat = 17 + j := by omega
      have e2 : (-(floor_log2 k 100)).toNat = 0 := by omega
      rw [e1, e2, pow_add] at hle
      have hpos : 1 ≤ 2 ^ j := Nat.one_le_two_pow
      have : 100 * (2 ^ 17 * 1) ≤ 100 * (2 ^ 17 * 2 ^ j) :=
        Nat.mul_le_mul_left _ (Nat.mul_le_mul_left _ hpos)
      norm_num at this hle
      omega
    obtain ⟨t, ht, ht7, ht149⟩ : ∃ t : Nat,
        max (floor_log2 k 100 - 23) (-149) = -(t : Int) ∧ 7 ≤ t ∧ t ≤ 149 :=
      ⟨(-(max (floor_log2 k 100 - 23) (-149))).toNat, by omega, by omega, by omega⟩
    have e1 : (-(-(t : Int))).toNat = t := by omega
    have e2 : (-(t : Int)).toNat = 0 := by omega
    have hnear := div_round_even_near (k * 2 ^ t) 100 (by decide)
    have hpow : 128 ≤ 2 ^ t := by
      have : 2 ^ 7 ≤ 2 ^ t := Nat.pow_le_pow_right (by decide) ht7
      simpa using this
    simp only [round_nearest_even, hk0, if_false, ht, round_at, e1, e2, pow_zero, Nat.mul_one]
    by_cases hm : div_round_even (k * 2 ^ t) 100 = 16777216
    · obtain ⟨s, rfl⟩ : ∃ s, t = s + 1 := ⟨t - 1, by omega⟩
      have hs : ¬ (104 : Int) < -(s : Int) := by omega
      have e3 : -((s + 1 : Nat) : Int) + 1 = -(s : Int) := by omega
      simp only [hm, if_true, e3, hs, if_false]
      refine ⟨8388608, s, rfl, ?_⟩
      rw [hm] at hnear
      rw [pow_succ] at hnear hpow
      have hc : k * (2 ^ s * 2) = 2 * (k * 2 ^ s) := by ring
      rw [hc] at hnear
      exact div_round_even_eq _ _ _ (by omega) (by omega) (by omega)
    · have hs : ¬ (104 : Int) < -(t : Int) := by omega
      simp only [hm, if_false, hs]
      refine ⟨_, t, rfl, ?_⟩
      exact div_round_even_eq _ _ _ (by omega) (by omega) (by omega)

theorem tolower_digit (c : Char) (h : isdigit c = true) : tolower c = c := by
  have hA : 'A'.toNat = 65 := by decide
  have h9 : '9'.toNat = 57 := by decide
  simp only [isdigit, decide_eq_true_eq, h9] at h
  unfold tolower
  rw [if_neg]
  rw [hA]
  omega

theorem starts_with_nocase_digit (c d : Char) (s w : CStr) (h : isdigit c = true)
    (hd : isdigit d = false) : starts_with_nocase (c :: s) (d :: w) = false := by
  simp [starts_with_nocase, tolower_digit c h, isdigit_ne c d h hd]

theorem scan_float_print_cents (neg : Bool) (k : Nat) :
    scan_float (if neg then '-' :: print_cents k else print_cents k) =
      some (round_nearest_even neg k 100, []) := by
  have hsk := skip_space_sign_utoa (k / 100) ['.', digit_char (k / 10), digit_char k]
  obtain ⟨c, s, hu, hc⟩ := utoa_head (k / 100)
  obtain ⟨d, hd, hdig⟩ := scan_digits_utoa (k / 100) ['.', digit_char (k / 10), digit_char k]
    (by simp; decide)
  have hsign : scan_sign (skip_space (if neg then '-' :: print_cents k else print_cents k)) =
      (neg, utoa (k / 100) ++ ['.', digit_char (k / 10), digit_char k]) := by
    cases neg
    · exact hsk.1
    · exact hsk.2
  have h1 : starts_with_nocase (utoa (k / 100) ++ ['.', digit_char (k / 10), digit_char k])
      "infinity".toList = false := by
    rw [hu]
    exact starts_with_nocase_digit c 'i' _ _ hc (by decide)
  have h2 : starts_with_nocase (utoa (k / 100) ++ ['.', digit_char (k / 10), digit_char k])
      "inf".toList = false := by
    rw [hu]
    exact starts_with_nocase_digit c 'i' _ _ hc (by decide)
  have h3 : starts_with_nocase (utoa (k / 100) ++ ['.', digit_char (k / 10), digit_char k])
      "nan".toList = false := by
    rw [hu]
    exact starts_with_nocase_digit c 'n' _ _ hc (by decide)
  have hfrac : scan_digits [digit_char (k / 10), digit_char k] (k / 100) 0 = (k, 2, []) := by
    have e : (k / 100 * 10 + k / 10 % 10) * 10 + k % 10 = k := by omega
    rw [scan_digits_digit_char, scan_digits_digit_char, e]
    rfl
  have hd0 : d + 2 ≠ 0 := by omega
  have e1 : (-2 : Int).toNat = 0 := by decide
  have e2 : (2 : Int).toNat = 2 := by decide
  simp only [scan_float, hsign, h1, h2, h3, Bool.false_eq_true, if_false, hdig, hfrac, hd0,
    scan_exponent]
  norm_num [e1, e2]

theorem two_decimal_amount_reads_back (neg : Bool) (k : Nat) (hk : k < 13107200) :
    scan_float (print_float2 (round_nearest_even neg k 100)) =
      some (round_nearest_even neg k 100, []) := by
  obtain ⟨m, t, hr, hc⟩ := round_two_decimals neg k hk
  have e1 : (-(-(t : Int))).toNat = t := by omega
  have e2 : (-(t : Int)).toNat = 0 := by omega
  have hp : print_float2 (round_nearest_even neg k 100) =
      if neg then '-' :: print_cents k else print_cents k := by
    rw [hr]
    simp only [print_float2, e1, e2, pow_zero, Nat.mul_one, hc]
  rw [hp]
  exact scan_float_print_cents neg k

/-- C2, as amended. Round trip: for every boat whose location member is the one of its
type, whose name and trailer tag are not empty and contain no comma and no newline, whose
bay letter is not a comma, a newline or NUL, and whose amount owed is a value that reading
its two-decimal text gives back, the line written by `save_data`, read the way `load_data`
and `add_boat` read it, gives the boat back in every field: name, length, type, location
detail and amount owed.  The condition on the amount holds for every `float` that is the
nearest one to a number of hundredths below 131072.00 in absolute value. -/
theorem save_line_round_trip (b : Boat) (u : Uninit) (h : round_trip_ready b) :
    (∃ line : CStr, save_line b = some line ∧
      make_boat (sscanf_boat (chop_newline line) u) = b) ∧
    ∀ (neg : Bool) (k : Nat), k < 13107200 →
      round_trip_ready { b with amount_owed := round_nearest_even neg k 100 } := by
  refine ⟨?_, fun neg k hk => ⟨h.1, h.2.1, h.2.2.1, two_decimal_amount_reads_back neg k hk⟩⟩
  obtain ⟨name, len, type, location, amount⟩ := b
  obtain ⟨hname, hlen, hloc, hamt⟩ := h
  simp only at hname hlen hloc hamt
  cases type <;> cases location <;> simp only [location_ready] at hloc
  · rename_i n
    refine ⟨_, rfl, ?_⟩
    have hs := round_trip_fields u name "slip".toList (print_int n) len amount hname hlen
      (by decide) (field_text_print_int n hloc) hamt
    have e : "slip,".toList = "slip".toList ++ [','] := rfl
    simp only [e, List.append_assoc] at hs ⊢
    rw [hs]
    have ht : parse_type "slip".toList = .SLIP := by decide
    simp only [make_boat, ht, atoi_print_int n hloc]
  · rename_i c
    refine ⟨_, rfl, ?_⟩
    have hc : field_text 31 [c] := by
      refine ⟨by simp, by simp, ?_, ?_, ?_⟩
      · simpa using fun e => hloc.1 e.symm
      · simpa using fun e => hloc.2.1 e.symm
      · simpa using fun e => hloc.2.2 e.symm
    have hs := round_trip_fields u name "land".toList [c] len amount hname hlen
      (by decide) hc hamt
    have e : "land,".toList = "land".toList ++ [','] := rfl
    simp only [e, List.append_assoc] at hs ⊢
    rw [hs]
    have ht : parse_type "land".toList = .LAND := by decide
    simp only [make_boat, ht, List.headD_cons]
  · rename_i t
    refine ⟨_, rfl, ?_⟩
    have htag : field_text 31 t := ⟨hloc.1, by have := hloc.2.1; omega, hloc.2.2⟩
    have hs := round_trip_fields u name "trailor".toList t len amount hname hlen
      (by decide) htag hamt
    have e : "trailor,".toList = "trailor".toList ++ [','] := rfl
    simp only [e, List.append_assoc] at hs ⊢
    rw [hs]
    have ht : parse_type "trailor".toList = .TRAILOR := by decide
    simp only [make_boat, ht]
  · rename_i n
    refine ⟨_, rfl, ?_⟩
    have hs := round_trip_fields u name "storage".toList (print_int n) len amount hname hlen
      (by decide) (field_text_print_int n hloc) hamt
    have e : "storage,".toList = "storage".toList ++ [','] := rfl
    simp only [e, List.append_assoc] at hs ⊢
    rw [hs]
    have ht : parse_type "storage".toList = .STORAGE := by decide
    simp only [make_boat, ht, atoi_print_int n hloc]

/-- C2, on the sample boat `Amy`, whose line is `Amy,30,land,B,50.00`. -/
theorem save_line_round_trip_witness :
    round_trip_ready amy ∧
    (∃ line : CStr, save_line amy = some line ∧
      make_boat (sscanf_boat (chop_newline line) blank) = amy) ∧
    ∀ (neg : Bool) (k : Nat), k < 13107200 →
      round_trip_ready { amy with amount_owed := round_nearest_even neg k 100 } :=
  ⟨by decide, save_line_round_trip amy blank (by decide)⟩

set_option maxRecDepth 20000 in
/-- C2 as stated fails on an amount owed that is not the `float` nearest to a two-decimal
number: the boat `Sue,9,storage,7,0.00` owes 9 * 11.2f = 13212057 * 2^-17 after one
`update_month`; it is written as `Sue,9,storage,7,100.80`, and that line reads back with the
amount 13212058 * 2^-17, the `float` nearest to 100.80. -/
theorem save_line_loses_amount :
    update_month (add_boat blank "Sue,9,storage,7,0.00".toList []) =
      [{ sue with amount_owed := .finite false 13212057 (-17) }] ∧
    save_line { sue with amount_owed := .finite false 13212057 (-17) } =
      some "Sue,9,storage,7,100.80\n".toList ∧
    make_boat (sscanf_boat (chop_newline "Sue,9,storage,7,100.80\n".toList) blank) =
      { sue with amount_owed := .finite false 13212058 (-17) } ∧
    ({ sue with amount_owed := .finite false 13212058 (-17) } : Boat) ≠
      { sue with amount_owed := .finite false 13212057 (-17) } :=
  ⟨by decide, by decide, by decide, by decide⟩

/-! ## Capacity -/

/-- C11, as amended. Capacity on add: when the inventory holds `MAX_BOATS` = 120 boats (or
more), `add_boat` on any record returns the inventory as it was, with the same count, the
same records and the same order, and it does so silently: it prints nothing, as on a
successful call. -/
theorem add_boat_full (u : Uninit) (csv_line : CStr) (marina : List Boat)
    (h : MAX_BOATS ≤ marina.length) :
    add_boat u csv_line marina = marina ∧
    (add_boat u csv_line marina).length = marina.length ∧
    add_boat_output u csv_line marina = [] ∧
    add_boat_output u csv_line marina = add_boat_output u csv_line [] := by
  have h1 : add_boat u csv_line marina = marina := by
    unfold add_boat
    rw [if_pos h]
  refine ⟨h1, by rw [h1], ?_, ?_⟩ <;> simp [add_boat_output]

/-- C11, on an inventory of 120 copies of the sample boat `Pat`. -/
theorem add_boat_full_witness :
    MAX_BOATS ≤ (List.replicate 120 pat).length ∧
    add_boat blank "Amy,30,land,B,50.00".toList (List.replicate 120 pat) =
      List.replicate 120 pat :=
  ⟨by decide,
    (add_boat_full blank "Amy,30,land,B,50.00".toList (List.replicate 120 pat) (by decide)).1⟩

/-- C11 as stated fails: on a full inventory `add_boat` gives no signal; what it prints is
empty, exactly as for the same record on the empty inventory, where the boat is stored. -/
theorem add_boat_full_silent :
    (List.replicate 120 pat).length = MAX_BOATS ∧
    add_boat_output blank "Amy,30,land,B,50.00".toList (List.replicate 120 pat) = [] ∧
    add_boat_output blank "Amy,30,land,B,50.00".toList [] = [] ∧
    add_boat blank "Amy,30,land,B,50.00".toList (List.replicate 120 pat) =
      List.replicate 120 pat ∧
    add_boat blank "Amy,30,land,B,50.00".toList [] = [amy] := by
  decide

theorem add_boat_length (u : Uninit) (csv_line : CStr) (marina : List Boat) :
    (add_boat u csv_line marina).length =
      if MAX_BOATS ≤ marina.length then marina.length else marina.length + 1 := by
  unfold add_boat
  split_ifs with h
  · rfl
  · rw [(sort_boats_perm _).length_eq]
    simp

theorem remove_boat_length_le (name : CStr) (marina : List Boat) :
    (remove_boat name marina).2.length ≤ marina.length := by
  rcases find_boat_index_cases name marina with ⟨hfind, -⟩ | ⟨k, b, h1, h2, -, -⟩
  · simp [remove_boat, hfind]
  · rw [remove_boat_at name marina k b h1 h2]
    have hk := (List.getElem?_eq_some_iff.1 h2).1
    simp only [List.length_append, List.length_take, List.length_drop]
    omega

theorem accept_payment_length (name : CStr) (amount : Float32) (marina : List Boat) :
    (accept_payment name amount marina).length = marina.length := by
  unfold accept_payment
  simp only
  split_ifs <;> simp

theorem update_month_length (marina : List Boat) :
    (update_month marina).length = marina.length := by
  rw [update_month_eq_map]
  simp

theorem exec_length_le (marina : List Boat) (c : Command) (h : marina.length ≤ MAX_BOATS) :
    (exec marina c).length ≤ MAX_BOATS := by
  cases c with
  | add u csv_line =>
    simp only [exec, add_boat_length]
    split_ifs <;> omega
  | remove name =>
    have := remove_boat_length_le name marina
    simp only [exec]
    omega
  | pay name amount =>
    simp only [exec, accept_payment_length]
    exact h
  | month =>
    simp only [exec, update_month_length]
    exact h

/-- C12. Capacity invariant: after any sequence of `add_boat`, `remove_boat`,
`accept_payment` and `update_month` calls on the empty inventory, the count is at least 0
and at most 120. -/
theorem boat_count_bounded (commands : List Command) :
    (0 : Int) ≤ ((run commands).length : Int) ∧ ((run commands).length : Int) ≤ 120 := by
  have key : ∀ (cs : List Command) (m : List Boat), m.length ≤ MAX_BOATS →
      (cs.foldl exec m).length ≤ MAX_BOATS := by
    intro cs
    induction cs with
    | nil => intro m hm; simpa using hm
    | cons c cs ih =>
      intro m hm
      simp only [List.foldl_cons]
      exact ih _ (exec_length_le m c hm)
  have h := key commands [] (by simp)
  unfold MAX_BOATS at h
  unfold run
  omega

/-! ## Uniqueness of names -/

theorem same_ignoring_case_symm {a b : CStr} (h : same_ignoring_case a b) :
    same_ignoring_case b a := by
  unfold same_ignoring_case at h ⊢
  exact h.symm

theorem names_distinct_add (u : Uninit) (csv_line : CStr) (marina : List Boat)
    (hm : names_distinct marina)
    (hfresh : ∀ b ∈ marina,
      ¬ same_ignoring_case (make_boat (sscanf_boat csv_line u)).name b.name) :
    names_distinct (add_boat u csv_line marina) := by
  unfold add_boat
  split_ifs
  · exact hm
  · unfold names_distinct at hm ⊢
    refine (List.Perm.pairwise_iff (fun h1 h2 => h1 (same_ignoring_case_symm h2))
      (sort_boats_perm _)).2 ?_
    rw [List.pairwise_append]
    refine ⟨hm, List.pairwise_singleton _ _, ?_⟩
    intro a ha b hb hsame
    rw [List.mem_singleton] at hb
    subst hb
    exact hfresh a ha (same_ignoring_case_symm hsame)

theorem remove_boat_sublist (name : CStr) (marina : List Boat) :
    (remove_boat name marina).2.Sublist marina := by
  rcases find_boat_index_cases name marina with ⟨hfind, -⟩ | ⟨k, b, h1, h2, -, -⟩
  · simp [remove_boat, hfind]
  · rw [remove_boat_at name marina k b h1 h2]
    conv => rhs; rw [← List.take_append_drop k marina]
    exact List.Sublist.append (List.Sublist.refl _)
      (List.drop_sublist_drop_left marina (by omega))

/-- C13, as amended. Name uniqueness: `remove_boat` keeps the names pairwise distinct
(ignoring case), and so does `add_boat` when the name of the new boat matches no boat
already present; `add_boat` itself does not look for the name.  So no two boats share a
name in any inventory reached from the empty one by such calls. -/
theorem names_stay_distinct (marina : List Boat) (h : ReachableFresh marina) :
    names_distinct marina := by
  induction h with
  | empty => exact List.Pairwise.nil
  | add m u csv_line _ hfresh ih => exact names_distinct_add u csv_line m ih hfresh
  | remove m name _ ih => exact List.Pairwise.sublist (remove_boat_sublist name m) ih

/-- C13, on the inventory reached by adding `Pat`, adding `Amy` and removing `pat`. -/
theorem names_stay_distinct_witness :
    ReachableFresh
      (remove_boat "pat".toList
        (add_boat blank "Amy,30,land,B,50.00".toList
          (add_boat blank "Pat,20,slip,5,100.00".toList []))).2 ∧
    names_distinct
      (remove_boat "pat".toList
        (add_boat blank "Amy,30,land,B,50.00".toList
          (add_boat blank "Pat,20,slip,5,100.00".toList []))).2 :=
  ⟨ReachableFresh.remove _ _
      (ReachableFresh.add _ _ _ (ReachableFresh.add _ _ _ ReachableFresh.empty (by decide))
        (by decide)),
    names_stay_distinct _
      (ReachableFresh.remove _ _
        (ReachableFresh.add _ _ _ (ReachableFresh.add _ _ _ ReachableFresh.empty (by decide))
          (by decide)))⟩

/-- C13 as stated fails: `add_boat` stores a second boat under a name that is already
there; after `Amy,30,land,B,50.00` and `AMY,31,slip,4,0.00` the inventory holds two boats
whose names are equal ignoring case. -/
theorem add_boat_duplicate_name :
    add_boats [(blank, "Amy,30,land,B,50.00".toList), (blank, "AMY,31,slip,4,0.00".toList)] =
      [amy, { name := "AMY".toList, length := 31, type := .SLIP, location := .slip_number 4,
              amount_owed := .finite false 0 (-149) }] ∧
    same_ignoring_case "Amy".toList "AMY".toList ∧
    ¬ names_distinct
      (add_boats [(blank, "Amy,30,land,B,50.00".toList), (blank, "AMY,31,slip,4,0.00".toList)]) := by
  decide

/-! ## Parsing a record -/

theorem same_ignoring_case_trans {a b c : CStr} (h1 : same_ignoring_case a b)
    (h2 : same_ignoring_case b c) : same_ignoring_case a c := by
  unfold same_ignoring_case at h1 h2 ⊢
  exact h1.trans h2

theorem type_choice (p1 p2 p3 : Prop) [Decidable p1] [Decidable p2] [Decidable p3]
    (x12 : p1 → ¬ p2) (x13 : p1 → ¬ p3) (x23 : p2 → ¬ p3) :
    ((if p1 then BoatType.SLIP else if p2 then .LAND else if p3 then .TRAILOR else .STORAGE)
        = .SLIP ↔ p1) ∧
    ((if p1 then BoatType.SLIP else if p2 then .LAND else if p3 then .TRAILOR else .STORAGE)
        = .LAND ↔ p2) ∧
    ((if p1 then BoatType.SLIP else if p2 then .LAND else if p3 then .TRAILOR else .STORAGE)
        = .TRAILOR ↔ p3) ∧
    ((if p1 then BoatType.SLIP else if p2 then .LAND else if p3 then .TRAILOR else .STORAGE)
        = .STORAGE ↔ (¬ p1 ∧ ¬ p2 ∧ ¬ p3)) := by
  by_cases c1 : p1
  · have n2 := x12 c1
    have n3 := x13 c1
    simp [c1, n2, n3]
  · by_cases c2 : p2
    · have n3 := x23 c2
      simp [c1, c2, n3]
    · by_cases c3 : p3 <;> simp [c1, c2, c3]

/-- C14. Kind parsing: `parse_type` returns `SLIP` exactly for the strings equal to `slip`
ignoring case, `LAND` exactly for those equal to `land`, `TRAILOR` exactly for those equal
to `trailor`, and `STORAGE` for every other string, among them `storage`, `trailer` and the
empty string. -/
theorem parse_type_cases (s : CStr) :
    (parse_type s = .SLIP ↔ same_ignoring_case s "slip".toList) ∧
    (parse_type s = .LAND ↔ same_ignoring_case s "land".toList) ∧
    (parse_type s = .TRAILOR ↔ same_ignoring_case s "trailor".toList) ∧
    (parse_type s = .STORAGE ↔
      (¬ same_ignoring_case s "slip".toList ∧ ¬ same_ignoring_case s "land".toList ∧
        ¬ same_ignoring_case s "trailor".toList)) ∧
    parse_type "storage".toList = .STORAGE ∧
    parse_type "trailer".toList = .STORAGE ∧
    parse_type [] = .STORAGE := by
  have h1 := strcasecmp_eq_zero_iff s "slip".toList
  have h2 := strcasecmp_eq_zero_iff s "land".toList
  have h3 := strcasecmp_eq_zero_iff s "trailor".toList
  have d12 : ¬ same_ignoring_case "slip".toList "land".toList := by decide
  have d13 : ¬ same_ignoring_case "slip".toList "trailor".toList := by decide
  have d23 : ¬ same_ignoring_case "land".toList "trailor".toList := by decide
  have x12 : same_ignoring_case s "slip".toList → ¬ same_ignoring_case s "land".toList :=
    fun a b => d12 (same_ignoring_case_trans (same_ignoring_case_symm a) b)
  have x13 : same_ignoring_case s "slip".toList → ¬ same_ignoring_case s "trailor".toList :=
    fun a b => d13 (same_ignoring_case_trans (same_ignoring_case_symm a) b)
  have x23 : same_ignoring_case s "land".toList → ¬ same_ignoring_case s "trailor".toList :=
    fun a b => d23 (same_ignoring_case_trans (same_ignoring_case_symm a) b)
  have key := type_choice (strcasecmp s "slip".toList = 0) (strcasecmp s "land".toList = 0)
    (strcasecmp s "trailor".toList = 0)
    (fun a b => x12 (h1.1 a) (h2.1 b)) (fun a b => x13 (h1.1 a) (h3.1 b))
    (fun a b => x23 (h2.1 a) (h3.1 b))
  exact ⟨key.1.trans h1, key.2.1.trans h2, key.2.2.1.trans h3,
    key.2.2.2.trans (and_congr (not_congr h1) (and_congr (not_congr h2) (not_congr h3))),
    by decide, by decide, by decide⟩

/-- C14, on the spelling `TrAiLoR`. -/
theorem parse_type_cases_witness : parse_type "TrAiLoR".toList = .TRAILOR :=
  (parse_type_cases "TrAiLoR".toList).2.2.1.2 (by decide)

theorem make_boat_location_active (s : Uninit) :
    location_active (make_boat s).type (make_boat s).location := by
  unfold make_boat
  simp only
  cases parse_type s.type_str <;> simp [location_active]

theorem mem_add_boat (u : Uninit) (csv_line : CStr) (marina : List Boat)
    (h : marina.length < MAX_BOATS) :
    make_boat (sscanf_boat csv_line u) ∈ add_boat u csv_line marina := by
  unfold add_boat
  rw [if_neg (by omega)]
  exact (sort_boats_perm _).mem_iff.2 (by simp)

/-- C15. Location detail decoding: for a well-formed record `name,length,kind,detail,amount`
(fields not empty, without comma, within the widths 127, 15 and 31 of `sscanf`, a trailer
tag within the 15 characters of its member), the boat that `add_boat` stores has the type
that `parse_type` gives for `kind`, and its location is the slip number `atoi detail` for
`SLIP`, the first character of `detail` for `LAND`, the text `detail` for `TRAILOR` and the
storage number `atoi detail` for `STORAGE`; a decimal number is stored as it is, whatever
its value.  For every record, well-formed or not, the member that was written is the one
that the stored type selects. -/
theorem add_boat_location (u : Uninit) (name kind detail amount rest : CStr) (len : Int)
    (a : Float32) (marina : List Boat)
    (hname : field_text 127 name) (hlen : int_range len) (hkind : field_text 15 kind)
    (hdet : field_text 31 detail) (htag : parse_type kind = .TRAILOR → detail.length ≤ 15)
    (hamt : scan_float amount = some (a, rest)) (hroom : marina.length < MAX_BOATS) :
    ∃ b : Boat, b = make_boat (sscanf_boat (csv_record name len kind detail amount) u) ∧
      b ∈ add_boat u (csv_record name len kind detail amount) marina ∧
      b.name = name ∧ b.length = len ∧ b.amount_owed = a ∧ b.type = parse_type kind ∧
      (b.type = .SLIP → b.location = .slip_number (atoi detail)) ∧
      (b.type = .LAND → ∃ c tail, detail = c :: tail ∧ b.location = .bay_letter c) ∧
      (b.type = .TRAILOR → b.location = .trailor_tag detail ∧ detail.length ≤ 15) ∧
      (b.type = .STORAGE → b.location = .storage_number (atoi detail)) ∧
      (∀ n : Int, int_range n → detail = print_int n →
        (b.type = .SLIP → b.location = .slip_number n) ∧
        (b.type = .STORAGE → b.location = .storage_number n)) ∧
      location_active b.type b.location ∧
      ∀ (csv_line : CStr) (v : Uninit),
        location_active (make_boat (sscanf_boat csv_line v)).type
          (make_boat (sscanf_boat csv_line v)).location := by
  have hs := sscanf_boat_fields u name kind detail amount rest len a hname hlen hkind hdet hamt
  have hloc : ∀ t : BoatType, parse_type kind = t →
      (make_boat (sscanf_boat (csv_record name len kind detail amount) u)).location =
        match t with
        | .SLIP => .slip_number (atoi detail)
        | .LAND => .bay_letter (detail.headD '\x00')
        | .TRAILOR => .trailor_tag detail
        | .STORAGE => .storage_number (atoi detail) := by
    intro t ht
    unfold csv_record
    rw [hs]
    simp only [make_boat, ht]
  have htype : (make_boat (sscanf_boat (csv_record name len kind detail amount) u)).type =
      parse_type kind := by
    unfold csv_record
    rw [hs]
    rfl
  refine ⟨_, rfl, mem_add_boat u _ marina hroom, ?_, ?_, ?_, htype, ?_, ?_, ?_, ?_, ?_,
    make_boat_location_active _, fun csv_line v => make_boat_location_active _⟩
  · unfold csv_record
    rw [hs]
    rfl
  · unfold csv_record
    rw [hs]
    rfl
  · unfold csv_record
    rw [hs]
    rfl
  · intro ht
    rw [hloc .SLIP (htype ▸ ht)]
  · intro ht
    rw [hloc .LAND (htype ▸ ht)]
    cases hd : detail with
    | nil => exact absurd hd hdet.1
    | cons c tail => exact ⟨c, tail, rfl, rfl⟩
  · intro ht
    rw [hloc .TRAILOR (htype ▸ ht)]
    exact ⟨rfl, htag (htype ▸ ht)⟩
  · intro ht
    rw [hloc .STORAGE (htype ▸ ht)]
  · intro n hn hd
    refine ⟨fun ht => ?_, fun ht => ?_⟩
    · rw [hloc .SLIP (htype ▸ ht), hd, atoi_print_int n hn]
    · rw [hloc .STORAGE (htype ▸ ht), hd, atoi_print_int n hn]

/-- C15, on the record `Tug,25,slip,999,10.00`: the slip number 999, outside 1-85, is
stored as it is. -/
theorem add_boat_location_witness :
    (field_text 127 "Tug".toList ∧ int_range 25 ∧ field_text 15 "slip".toList ∧
      field_text 31 "999".toList ∧
      scan_float "10.00".toList = some (Float32.ofInt 10, [])) ∧
    ∃ b : Boat, b ∈ add_boat blank "Tug,25,slip,999,10.00".toList [amy] ∧
      b.type = .SLIP ∧ b.location = .slip_number 999 := by
  refine ⟨⟨by decide, by decide, by decide, by decide, by decide⟩, ?_⟩
  obtain ⟨b, -, hmem, -, -, -, htype, -, -, -, -, hnum, -, -⟩ :=
    add_boat_location blank "Tug".toList "slip".toList "999".toList "10.00".toList [] 25
      (Float32.ofInt 10) [amy] (by decide) (by decide) (by decide) (by decide)
      (fun h => absurd h (by decide)) (by decide) (by decide)
  have ht : b.type = .SLIP := htype.trans (by decide)
  exact ⟨b, hmem, ht, (hnum 999 (by decide) (by decide)).1 ht⟩

/-- C16 fails on the code: for the record `Tug,25,trailor,ABCDEFGHIJKLMNOPQRST,10.00` the
text that `add_boat` copies into the tag with `strcpy` is the whole detail token, 20
characters, more than the 15 that the 16-byte member holds. -/
theorem add_boat_long_tag :
    (add_boat blank "Tug,25,trailor,ABCDEFGHIJKLMNOPQRST,10.00".toList []).map
        (fun b => (b.name, b.type, b.location)) =
      [("Tug".toList, .TRAILOR, .trailor_tag "ABCDEFGHIJKLMNOPQRST".toList)] ∧
    "ABCDEFGHIJKLMNOPQRST".toList.length = 20 ∧
    ¬ "ABCDEFGHIJKLMNOPQRST".toList.length ≤ 15 := by
  decide

/-! ## A session -/

theorem sample_line_pat (u : Uninit) :
    make_boat (sscanf_boat "Pat,20,slip,5,100.00".toList u) = pat := by
  rfl

theorem sample_line_amy (u : Uninit) :
    make_boat (sscanf_boat "Amy,30,land,B,50.00".toList u) = amy := by
  rfl

theorem sample_inventory (u1 u2 : Uninit) :
    add_boat u2 "Amy,30,land,B,50.00".toList (add_boat u1 "Pat,20,slip,5,100.00".toList []) =
      [amy, pat] := by
  have e1 : add_boat u1 "Pat,20,slip,5,100.00".toList [] = [pat] := by
    simp only [add_boat]
    rw [sample_line_pat u1]
    decide
  rw [e1]
  simp only [add_boat]
  rw [sample_line_amy u2]
  decide

/-- C17. End-to-end scenario: from the empty inventory, adding `Pat,20,slip,5,100.00` and
then `Amy,30,land,B,50.00` gives the order Amy, Pat; `update_month` makes Amy owe 470 and
Pat owe 350, printed `470.00` and `350.00`; the payment of `350.00` for Pat is accepted and
leaves Pat at zero, printed `0.00`; removing Amy leaves exactly Pat, with name `Pat`,
length 20, slip 5 and zero owed. -/
theorem session_scenario (u1 u2 : Uninit) :
    add_boat u2 "Amy,30,land,B,50.00".toList (add_boat u1 "Pat,20,slip,5,100.00".toList []) =
      [amy, pat] ∧
    update_month
        (add_boat u2 "Amy,30,land,B,50.00".toList
          (add_boat u1 "Pat,20,slip,5,100.00".toList [])) =
      [{ amy with amount_owed := Float32.ofInt 470 },
       { pat with amount_owed := Float32.ofInt 350 }] ∧
    print_float2 (Float32.ofInt 470) = "470.00".toList ∧
    print_float2 (Float32.ofInt 350) = "350.00".toList ∧
    scan_float "350.00".toList = some (Float32.ofInt 350, []) ∧
    payment_option "Pat".toList (Float32.ofInt 350)
        (update_month
          (add_boat u2 "Amy,30,land,B,50.00".toList
            (add_boat u1 "Pat,20,slip,5,100.00".toList []))) =
      ([], [{ amy with amount_owed := Float32.ofInt 470 },
            { pat with amount_owed := .finite false 0 (-149) }]) ∧
    accept_payment "Pat".toList (Float32.ofInt 350)
        (update_month
          (add_boat u2 "Amy,30,land,B,50.00".toList
            (add_boat u1 "Pat,20,slip,5,100.00".toList []))) =
      [{ amy with amount_owed := Float32.ofInt 470 },
       { pat with amount_owed := .finite false 0 (-149) }] ∧
    print_float2 (.finite false 0 (-149)) = "0.00".toList ∧
    remove_boat "Amy".toList
        (accept_payment "Pat".toList (Float32.ofInt 350)
          (update_month
            (add_boat u2 "Amy,30,land,B,50.00".toList
              (add_boat u1 "Pat,20,slip,5,100.00".toList [])))) =
      ([], [{ name := "Pat".toList, length := 20, type := .SLIP, location := .slip_number 5,
              amount_owed := .finite false 0 (-149) }]) := by
  rw [sample_inventory u1 u2]
  decide

/-! ## Adding as ordered insertion -/

/-- C18. Add loses and invents nothing: on an inventory of fewer than 120 boats, the count
after `add_boat` is the old count plus one, and the new inventory is a permutation of the
old one followed by the boat built from the record. -/
theorem add_boat_perm (u : Uninit) (csv_line : CStr) (marina : List Boat)
    (h : marina.length < MAX_BOATS) :
    (add_boat u csv_line marina).length = marina.length + 1 ∧
    (add_boat u csv_line marina).Perm (marina ++ [make_boat (sscanf_boat csv_line u)]) := by
  have hn : ¬ marina.length ≥ MAX_BOATS := by omega
  unfold add_boat
  rw [if_neg hn]
  refine ⟨?_, sort_boats_perm _⟩
  rw [(sort_boats_perm _).length_eq]
  simp

/-- C18, on the inventory `[Amy]` and the record of `Pat`. -/
theorem add_boat_perm_witness :
    [amy].length < MAX_BOATS ∧
    (add_boat blank "Pat,20,slip,5,100.00".toList [amy]).length = [amy].length + 1 ∧
    (add_boat blank "Pat,20,slip,5,100.00".toList [amy]).Perm
      ([amy] ++ [make_boat (sscanf_boat "Pat,20,slip,5,100.00".toList blank)]) :=
  ⟨by decide, add_boat_perm blank "Pat,20,slip,5,100.00".toList [amy] (by decide)⟩

theorem strcasecmp_neg_flip : ∀ (a b : CStr), strcasecmp a b < 0 → 0 < strcasecmp b a
  | [], [] => by simp [strcasecmp]
  | [], _ :: _ => by simp [strcasecmp]
  | _ :: _, [] => by simp [strcasecmp]
  | c1 :: s1, c2 :: s2 => by
    have ih := strcasecmp_neg_flip s1 s2
    simp only [strcasecmp]
    split_ifs <;> omega

theorem sift_append_of_not_gt (x : Boat) (r : List Boat) : ∀ (l : List Boat),
    (∀ y ∈ l, ¬ strcasecmp x.name y.name > 0) →
    sift x (l ++ r) = ((sift x r).1, l ++ (sift x r).2)
  | [], _ => rfl
  | y :: l, h => by
    have hy : ¬ strcasecmp x.name y.name > 0 := h y (by simp)
    have ih := sift_append_of_not_gt x r l (fun z hz => h z (by simp [hz]))
    rw [List.cons_append]
    simp only [sift, hy, if_false, ih, List.cons_append]

theorem insert_by_name_least (x : Boat) (l : List Boat)
    (h : ∀ y ∈ l, strcasecmp x.name y.name < 0) : insert_by_name x l = x :: l := by
  cases l with
  | nil => rfl
  | cons y t =>
    have hy : strcasecmp y.name x.name > 0 := strcasecmp_neg_flip _ _ (h y (by simp))
    simp only [insert_by_name, hy, if_true]

theorem select_rounds_insert : ∀ (m : List Boat) (b : Boat),
    m.Pairwise (fun a c => strcasecmp a.name c.name < 0) →
    select_rounds m.length (m ++ [b]) = insert_by_name b m
  | [], _, _ => rfl
  | x :: m, b, h => by
    obtain ⟨hx, hm⟩ := List.pairwise_cons.1 h
    have hs := sift_append_of_not_gt x [b] m (fun y hy => by have := hx y hy; omega)
    rw [List.cons_append, List.length_cons]
    simp only [select_rounds, hs]
    by_cases hgt : strcasecmp x.name b.name > 0
    · simp only [sift, hgt, if_true, insert_by_name]
      rw [select_rounds_insert m x hm, insert_by_name_least x m hx]
    · simp only [sift, hgt, if_false, insert_by_name]
      rw [select_rounds_insert m b hm]

theorem strict_of_sorted_distinct (m : List Boat) (hs : name_sorted m)
    (hd : names_distinct m) : m.Pairwise (fun a c => strcasecmp a.name c.name < 0) := by
  unfold name_sorted at hs
  unfold names_distinct at hd
  refine (hs.and hd).imp ?_
  rintro a c ⟨h1, h2⟩
  have h3 : strcasecmp a.name c.name ≠ 0 := fun h => h2 ((strcasecmp_eq_zero_iff _ _).1 h)
  omega

theorem add_boat_eq_insert (u : Uninit) (csv_line : CStr) (marina : List Boat)
    (hs : name_sorted marina) (hd : names_distinct marina) (h : marina.length < MAX_BOATS) :
    add_boat u csv_line marina =
      insert_by_name (make_boat (sscanf_boat csv_line u)) marina := by
  have hn : ¬ marina.length ≥ MAX_BOATS := by omega
  unfold add_boat
  rw [if_neg hn, sort_boats_eq]
  have hl : (marina ++ [make_boat (sscanf_boat csv_line u)]).length - 1 = marina.length := by
    simp
  rw [hl]
  exact select_rounds_insert marina _ (strict_of_sorted_distinct marina hs hd)

theorem insert_by_name_split (b : Boat) : ∀ (m : List Boat),
    ∃ pre post : List Boat, m = pre ++ post ∧ insert_by_name b m = pre ++ b :: post ∧
      (∀ x ∈ pre, strcasecmp x.name b.name ≤ 0) ∧
      (∀ y ∈ post.head?, strcasecmp y.name b.name > 0)
  | [] => ⟨[], [], rfl, rfl, by simp, by simp⟩
  | x :: m => by
    by_cases hgt : strcasecmp x.name b.name > 0
    · refine ⟨[], x :: m, rfl, ?_, by simp, ?_⟩
      · simp only [insert_by_name, hgt, if_true, List.nil_append]
      · simpa using hgt
    · obtain ⟨pre, post, h1, h2, h3, h4⟩ := insert_by_name_split b m
      refine ⟨x :: pre, post, by rw [h1]; rfl, ?_, ?_, h4⟩
      · simp only [insert_by_name, hgt, if_false, h2, List.cons_append]
      · intro y hy
        rcases List.mem_cons.1 hy with rfl | hy
        · omega
        · exact h3 y hy

/-- C19. Append-then-sort equals ordered insertion: on an inventory that is sorted with
pairwise distinct names (ignoring case) and has fewer than 120 boats, `add_boat` gives
exactly the inventory with the new boat inserted immediately before the first boat whose
name is greater: the boats before it, none of them greater, then the new boat, then the
boats after it, all in their old order.  This holds whether or not the new name matches
a boat already present. -/
theorem add_boat_is_insertion (u : Uninit) (csv_line : CStr) (marina : List Boat)
    (hs : name_sorted marina) (hd : names_distinct marina) (h : marina.length < MAX_BOATS) :
    add_boat u csv_line marina =
      insert_by_name (make_boat (sscanf_boat csv_line u)) marina ∧
    ∃ pre post : List Boat, marina = pre ++ post ∧
      add_boat u csv_line marina = pre ++ make_boat (sscanf_boat csv_line u) :: post ∧
      (∀ x ∈ pre, strcasecmp x.name (make_boat (sscanf_boat csv_line u)).name ≤ 0) ∧
      (∀ y ∈ post.head?, strcasecmp y.name (make_boat (sscanf_boat csv_line u)).name > 0) := by
  have he := add_boat_eq_insert u csv_line marina hs hd h
  obtain ⟨pre, post, h1, h2, h3, h4⟩ :=
    insert_by_name_split (make_boat (sscanf_boat csv_line u)) marina
  exact ⟨he, pre, post, h1, he.trans h2, h3, h4⟩

/-- C19, on the inventory `[Amy, Sue]` and the record of `Pat`. -/
theorem add_boat_is_insertion_witness :
    (name_sorted [amy, sue] ∧ names_distinct [amy, sue] ∧ [amy, sue].length < MAX_BOATS) ∧
    add_boat blank "Pat,20,slip,5,100.00".toList [amy, sue] =
      insert_by_name (make_boat (sscanf_boat "Pat,20,slip,5,100.00".toList blank)) [amy, sue] :=
  ⟨⟨by decide, by decide, by decide⟩,
    (add_boat_is_insertion blank "Pat,20,slip,5,100.00".toList [amy, sue]
      (by decide) (by decide) (by decide)).1⟩

theorem find_boat_index_from_append (name : CStr) (b : Boat) (post : List Boat)
    (hb : strcasecmp name b.name = 0) : ∀ (pre : List Boat) (i0 : Nat),
    (∀ x ∈ pre, strcasecmp name x.name ≠ 0) →
    find_boat_index_from name (pre ++ b :: post) i0 = ((i0 + pre.length : Nat) : Int)
  | [], i0, _ => by simp [find_boat_index_from, hb]
  | x :: pre, i0, h => by
    have hx : strcasecmp name x.name ≠ 0 := h x (by simp)
    have ih := find_boat_index_from_append name b post hb pre (i0 + 1)
      (fun z hz => h z (by simp [hz]))
    rw [List.cons_append]
    simp only [find_boat_index_from, hx, if_false, ih, List.length_cons]
    congr 1
    omega

/-- C20. Add then remove is the identity: on an inventory that is sorted with pairwise
distinct names (ignoring case) and has fewer than 120 boats, when the name of the boat
built from the record matches no boat already present, `add_boat` of the record followed
by `remove_boat` of that name prints nothing and gives back the original inventory: same
count, same records, same order. -/
theorem add_then_remove (u : Uninit) (csv_line : CStr) (marina : List Boat)
    (hs : name_sorted marina) (hd : names_distinct marina) (h : marina.length < MAX_BOATS)
    (hfresh : ∀ x ∈ marina,
      ¬ same_ignoring_case (make_boat (sscanf_boat csv_line u)).name x.name) :
    remove_boat (make_boat (sscanf_boat csv_line u)).name (add_boat u csv_line marina) =
      ([], marina) ∧
    (remove_boat (make_boat (sscanf_boat csv_line u)).name
      (add_boat u csv_line marina)).2.length = marina.length := by
  have he := add_boat_eq_insert u csv_line marina hs hd h
  obtain ⟨pre, post, h1, h2, -, -⟩ :=
    insert_by_name_split (make_boat (sscanf_boat csv_line u)) marina
  have hself : strcasecmp (make_boat (sscanf_boat csv_line u)).name
      (make_boat (sscanf_boat csv_line u)).name = 0 :=
    (strcasecmp_eq_zero_iff _ _).2 rfl
  have hpre : ∀ x ∈ pre, strcasecmp (make_boat (sscanf_boat csv_line u)).name x.name ≠ 0 := by
    intro x hx hz
    exact hfresh x (by rw [h1]; simp [hx]) ((strcasecmp_eq_zero_iff _ _).1 hz)
  have hfind : find_boat_index (make_boat (sscanf_boat csv_line u)).name
      (pre ++ make_boat (sscanf_boat csv_line u) :: post) = (pre.length : Int) := by
    have := find_boat_index_from_append _ _ post hself pre 0 hpre
    simpa [find_boat_index] using this
  have hrem := remove_boat_at (make_boat (sscanf_boat csv_line u)).name
    (pre ++ make_boat (sscanf_boat csv_line u) :: post) pre.length
    (make_boat (sscanf_boat csv_line u)) hfind (getElem?_append_cons _ _ _)
  have hres : remove_boat (make_boat (sscanf_boat csv_line u)).name
      (add_boat u csv_line marina) = ([], marina) := by
    rw [he, h2, hrem, h1]
    simp
  exact ⟨hres, by rw [hres]⟩

/-- C20, on the inventory `[Amy, Sue]` and the record of `Pat`. -/
theorem add_then_remove_witness :
    (name_sorted [amy, sue] ∧ names_distinct [amy, sue] ∧ [amy, sue].length < MAX_BOATS ∧
      ∀ x ∈ [amy, sue],
        ¬ same_ignoring_case
          (make_boat (sscanf_boat "Pat,20,slip,5,100.00".toList blank)).name x.name) ∧
    remove_boat (make_boat (sscanf_boat "Pat,20,slip,5,100.00".toList blank)).name
        (add_boat blank "Pat,20,slip,5,100.00".toList [amy, sue]) = ([], [amy, sue]) :=
  ⟨⟨by decide, by decide, by decide, by decide⟩,
    (add_then_remove blank "Pat,20,slip,5,100.00".toList [amy, sue]
      (by decide) (by decide) (by decide) (by decide)).1⟩

end BoatManagement
